import Mathlib

/-!
Verification development for the `syntax` crate of the gql.rs repository
(lexer `src/syntax/src/lexer.rs`, token model `src/syntax/src/token.rs`,
parser `src/syntax/src/ast.rs`, node model `src/syntax/src/nodes.rs`,
validation `src/syntax/src/validation.rs`, errors `src/syntax/src/error.rs`,
document `src/syntax/src/document.rs`).

The Rust code is shallowly embedded: strings become `List Char` / `String`,
the `Peekable<CharIndices>` iterator becomes a `List (Nat × Char)` of
(byte-offset, character) pairs, and every lexer/parser function becomes an
executable Lean function.  A Rust panic (e.g. `Option::unwrap` on `None`)
is modelled as the `none` value of an outer `Option` layer; `Result` is
modelled as `Except`.
-/

namespace Gql

/-- Location mirrors `token.rs`: absolute position, line, column. -/
structure Location where
  absolute_position : Nat
  line : Nat
  column : Nat
deriving Repr, DecidableEq

/-- Mirror of `Location::new`. -/
def Location.new (pos line column : Nat) : Location :=
  { absolute_position := pos, line := line, column := column }

/-- Mirror of `Location::ignored()` (the `IGNORED_LOCATION` constant). -/
def Location.ignored : Location :=
  { absolute_position := 0, line := 0, column := 0 }

/-- Model of Rust `f64` values produced by this lexer.  The lexer only ever
builds floats from a `-?[0-9]+\.[0-9]+` match, so every value is an exact
decimal; we model it by the represented rational number.  (IEEE rounding is
not modelled; no claim in this development depends on float values.) -/
structure F64 where
  val : Rat
deriving Repr, DecidableEq

/-- Token mirrors the `Token` enum of `token.rs` (lifetimes dropped; the
borrowed `&str` payloads become owned `String`s). -/
inductive Token where
  | Start : Token
  | End : Token
  | Bang : Location → Token
  | Dollar : Location → Token
  | Amp : Location → Token
  | Spread : Location → Token
  | Colon : Location → Token
  | Equals : Location → Token
  | At : Location → Token
  | OpenParen : Location → Token
  | CloseParen : Location → Token
  | OpenSquare : Location → Token
  | CloseSquare : Location → Token
  | OpenBrace : Location → Token
  | CloseBrace : Location → Token
  | Pipe : Location → Token
  | Name : Location → String → Token
  | Int : Location → Int → Token
  | Float : Location → F64 → Token
  | Str : Location → String → Token
  | BlockStr : Location → String → Token
  | Comment : Location → String → Token
deriving Repr, DecidableEq

/-- Discriminant index of a token variant (used to model
`mem::discriminant` equality in `Token::is_same_type`). -/
def Token.kindIdx : Token → Nat
  | .Start => 0
  | .End => 1
  | .Bang _ => 2
  | .Dollar _ => 3
  | .Amp _ => 4
  | .Spread _ => 5
  | .Colon _ => 6
  | .Equals _ => 7
  | .At _ => 8
  | .OpenParen _ => 9
  | .CloseParen _ => 10
  | .OpenSquare _ => 11
  | .CloseSquare _ => 12
  | .OpenBrace _ => 13
  | .CloseBrace _ => 14
  | .Pipe _ => 15
  | .Name _ _ => 16
  | .Int _ _ => 17
  | .Float _ _ => 18
  | .Str _ _ => 19
  | .BlockStr _ _ => 20
  | .Comment _ _ => 21

/-- Mirror of `Token::is_same_type` (discriminant comparison only). -/
def Token.is_same_type (a b : Token) : Bool :=
  a.kindIdx == b.kindIdx

/-- Mirror of `Token::location`: `Start`/`End` answer the ignored location. -/
def Token.location : Token → Location
  | .Start => Location.ignored
  | .End => Location.ignored
  | .Bang l => l
  | .Dollar l => l
  | .Amp l => l
  | .Spread l => l
  | .Colon l => l
  | .Equals l => l
  | .At l => l
  | .OpenParen l => l
  | .CloseParen l => l
  | .OpenSquare l => l
  | .CloseSquare l => l
  | .OpenBrace l => l
  | .CloseBrace l => l
  | .Pipe l => l
  | .Name l _ => l
  | .Int l _ => l
  | .Float l _ => l
  | .Str l _ => l
  | .BlockStr l _ => l
  | .Comment l _ => l

/-- Mirror of the `PartialEq for Token` impl in `token.rs`: the
value-bearing variants `Name`/`Str`/`BlockStr`/`Int`/`Float` compare the
value only (locations ignored); all other variants compare by discriminant. -/
def Token.eqRust (a b : Token) : Bool :=
  match a, b with
  | .Name _ v, .Name _ w => v == w
  | .Str _ v, .Str _ w => v == w
  | .BlockStr _ v, .BlockStr _ w => v == w
  | .Int _ v, .Int _ w => v == w
  | .Float _ v, .Float _ w => v == w
  | _, _ => a.kindIdx == b.kindIdx

/-- Debug rendering of a `Location` as produced by Rust `derive(Debug)`
(used only inside token display strings carried by parse errors). -/
def Location.debugStr (l : Location) : String :=
  "Location \x7b absolute_position: " ++ toString l.absolute_position ++
    ", line: " ++ toString l.line ++ ", column: " ++ toString l.column ++ " \x7d"

/-- Debug rendering of a token, modelling Rust `derive(Debug)` output for
the `Token` enum (string payloads are rendered quoted, unescaped — the
names appearing in this development need no escaping). -/
def Token.debugStr : Token → String
  | .Start => "Start"
  | .End => "End"
  | .Bang l => "Bang(" ++ l.debugStr ++ ")"
  | .Dollar l => "Dollar(" ++ l.debugStr ++ ")"
  | .Amp l => "Amp(" ++ l.debugStr ++ ")"
  | .Spread l => "Spread(" ++ l.debugStr ++ ")"
  | .Colon l => "Colon(" ++ l.debugStr ++ ")"
  | .Equals l => "Equals(" ++ l.debugStr ++ ")"
  | .At l => "At(" ++ l.debugStr ++ ")"
  | .OpenParen l => "OpenParen(" ++ l.debugStr ++ ")"
  | .CloseParen l => "CloseParen(" ++ l.debugStr ++ ")"
  | .OpenSquare l => "OpenSquare(" ++ l.debugStr ++ ")"
  | .CloseSquare l => "CloseSquare(" ++ l.debugStr ++ ")"
  | .OpenBrace l => "OpenBrace(" ++ l.debugStr ++ ")"
  | .CloseBrace l => "CloseBrace(" ++ l.debugStr ++ ")"
  | .Pipe l => "Pipe(" ++ l.debugStr ++ ")"
  | .Name l v => "Name(" ++ l.debugStr ++ ", \"" ++ v ++ "\")"
  | .Int l v => "Int(" ++ l.debugStr ++ ", " ++ toString v ++ ")"
  | .Float l v => "Float(" ++ l.debugStr ++ ", " ++ toString v.val ++ ")"
  | .Str l v => "Str(" ++ l.debugStr ++ ", \"" ++ v ++ "\")"
  | .BlockStr l v => "BlockStr(" ++ l.debugStr ++ ", \"" ++ v ++ "\")"
  | .Comment l v => "Comment(" ++ l.debugStr ++ ", \"" ++ v ++ "\")"

/-- Mirror of `Display for Token`: `format!("Token<{:?}>", self)`. -/
def Token.toDisplay (t : Token) : String :=
  "Token<" ++ t.debugStr ++ ">"

/-- LexError mirrors `error.rs`. -/
inductive LexError where
  | UnmatchedQuote : Location → LexError
  | UnknownCharacter : Location → LexError
  | UnexpectedCharacter : Location → LexError
  | UnableToConvert : Location → String → LexError
  | EOF : LexError
deriving Repr, DecidableEq

/-- ParseError mirrors `error.rs`. -/
inductive ParseError where
  | BadValue : ParseError
  | DocumentEmpty : ParseError
  | ArgumentEmpty : Location → ParseError
  | ObjectEmpty : Location → ParseError
  | EOF : ParseError
  | LexError : LexError → ParseError
  | UnexpectedToken : (expected received : String) → Location → ParseError
  | UnexpectedKeyword : (expected received : String) → Location → ParseError
  | NotImplemented : ParseError
deriving Repr, DecidableEq

/-- ValidationError mirrors `error.rs` (a bare message). -/
structure ValidationError where
  message : String
deriving Repr, DecidableEq

/-- Mirror of `ValidationError::new`. -/
def ValidationError.new (message : String) : ValidationError :=
  { message := message }

/-- An item yielded by the lexer iterator: `Result<Token, LexError>`. -/
abbrev LexerItem := Except LexError Token

/-! Character classes used by the lexer dispatch. -/

/-- ASCII letter test, mirroring the `'a'..='z' | 'A'..='Z'` match arm of
`get_next_token`. -/
def isAsciiLetterChar (c : Char) : Bool :=
  ('a' ≤ c && c ≤ 'z') || ('A' ≤ c && c ≤ 'Z')

/-- Model of Rust `char::is_alphanumeric` (Unicode Alphabetic ∪ Nd), used
by `lex_name`'s continuation loop.  It is exact on ASCII and on the
Latin-1 / Latin Extended-A/B ranges (U+00C0..U+024F minus the two
multiplication/division signs); the remaining Unicode alphabetic ranges
are not enumerated — no claim in this development depends on them, only on
the fact that the class is strictly larger than ASCII alphanumerics. -/
def rustIsAlphanumeric (c : Char) : Bool :=
  c.isAlpha || c.isDigit ||
    (0xC0 ≤ c.toNat && c.toNat ≤ 0x24F && c.toNat ≠ 0xD7 && c.toNat ≠ 0xF7)

/-! List-iterator helpers modelling `Peekable<CharIndices>` operations.
The remaining input is a list of (byte-offset, character) pairs. -/

/-- Mirror of `CharIndices` over a character list: pairs each character
with its UTF-8 byte offset, starting from `i`. -/
def charIndicesFrom (i : Nat) : List Char → List (Nat × Char)
  | [] => []
  | c :: cs => (i, c) :: charIndicesFrom (i + c.utf8Size) cs

/-- Mirror of `Iterator::find`: consumes elements up to and including the
first one satisfying `p`; returns that element (if any) and the elements
after it. -/
def iterFind (p : Nat × Char → Bool) : List (Nat × Char) → Option (Nat × Char) × List (Nat × Char)
  | [] => (none, [])
  | x :: xs => if p x then (some x, xs) else iterFind p xs

/-- Mirror of `Iterator::position`: consumes elements up to and including
the first one satisfying `p`; returns how many elements were consumed
before it (if found) and the elements after it. -/
def iterPosition (p : Nat × Char → Bool) : List (Nat × Char) → Option Nat × List (Nat × Char)
  | [] => (none, [])
  | x :: xs =>
    if p x then (some 0, xs)
    else
      match iterPosition p xs with
      | (r, rest) => (r.map (· + 1), rest)

/-! Byte-indexed slicing of the raw input, modelling `str::get(a..b)`.
`none` models Rust's `None` (out of bounds or not on a char boundary);
`unwrap` on that `None` is a Rust panic. -/

/-- Drop a prefix of exactly `n` bytes; `none` if `n` is not a character
boundary of the list. -/
def byteDrop : List Char → Nat → Option (List Char)
  | l, 0 => some l
  | [], _ + 1 => none
  | c :: cs, n + 1 =>
    if c.utf8Size ≤ n + 1 then byteDrop cs (n + 1 - c.utf8Size) else none

/-- Take a prefix of exactly `n` bytes; `none` if `n` is not a character
boundary of the list. -/
def byteTake : List Char → Nat → Option (List Char)
  | _, 0 => some []
  | [], _ + 1 => none
  | c :: cs, n + 1 =>
    if c.utf8Size ≤ n + 1 then (byteTake cs (n + 1 - c.utf8Size)).map (fun u => c :: u)
    else none

/-- Mirror of `str::get(a..b)` on a character list. -/
def byteSlice (s : List Char) (a b : Nat) : Option (List Char) :=
  if a ≤ b then (byteDrop s a).bind (fun t => byteTake t (b - a)) else none

/-- Numeric value of a digit list (the value `"1234".parse` computes). -/
def digitsToNat (ds : List Char) : Nat :=
  ds.foldl (fun a c => a * 10 + (c.toNat - 48)) 0

/-- Leading run of ASCII digits of the indexed input, with the rest. -/
def leadingDigits : List (Nat × Char) → List Char × List (Nat × Char)
  | [] => ([], [])
  | (j, c) :: rest =>
    if c.isDigit then
      match leadingDigits rest with
      | (ds, r) => (c :: ds, r)
    else ([], (j, c) :: rest)

/-- Attempted match of the FLOAT regex `-?[0-9]+\.[0-9]+` anchored at the
head of the list (whose head has byte offset `j`); returns
(end offset, sign, integer digits, fraction digits). -/
def floatAt (j : Nat) (l : List (Nat × Char)) : Option (Nat × Bool × List Char × List Char) :=
  let negAndRest : Bool × List (Nat × Char) :=
    match l with
    | (_, c) :: rest => if c = '-' then (true, rest) else (false, l)
    | [] => (false, l)
  match negAndRest with
  | (neg, l1) =>
    match leadingDigits l1 with
    | (d1, l2) =>
      if d1.isEmpty then none
      else
        match l2 with
        | (_, c) :: l3 =>
          if c = '.' then
            match leadingDigits l3 with
            | (d2, _) =>
              if d2.isEmpty then none
              else some (j + (if neg then 1 else 0) + d1.length + 1 + d2.length, neg, d1, d2)
          else none
        | [] => none

/-- Unanchored leftmost search of the FLOAT regex from the current input
position, modelling `FLOAT.is_match_at` / `captures_read_at`; returns
(start, end, sign, integer digits, fraction digits). -/
def findFloatMatch : List (Nat × Char) → Option (Nat × Nat × Bool × List Char × List Char)
  | [] => none
  | (j, c) :: rest =>
    match floatAt j ((j, c) :: rest) with
    | some (stop, neg, d1, d2) => some (j, stop, neg, d1, d2)
    | none => findFloatMatch rest

/-- Unanchored leftmost search of the INT regex `-?[0-9]+`, modelling
`INT.is_match_at` / `captures_read_at`; returns
(start, end, sign, digits). -/
def findIntMatch : List (Nat × Char) → Option (Nat × Nat × Bool × List Char)
  | [] => none
  | (j, c) :: rest =>
    if c.isDigit then
      match leadingDigits ((j, c) :: rest) with
      | (ds, _) => some (j, j + ds.length, false, ds)
    else if c = '-' then
      match rest with
      | (_, c2) :: _ =>
        if c2.isDigit then
          match leadingDigits rest with
          | (ds, _) => some (j, j + 1 + ds.length, true, ds)
        else findIntMatch rest
      | [] => none
    else findIntMatch rest

/-- Body scan of the SINGLE string regex `"((?:\\.|[^"\\])*)"` after the
opening quote: a greedy sequence of units (an escape `\\.` — the `.` does
not match a newline — or any character other than `"` and `\`), which must
stop at a closing `"`.  Returns the body characters and the byte offset of
the closing quote.  The scan is deterministic: no backtracking can rescue
a failed attempt, matching the regex engine's behaviour on this pattern. -/
def scanStrBody : List (Nat × Char) → Option (List Char × Nat)
  | [] => none
  | (j, c) :: rest =>
    if c = '"' then some ([], j)
    else if c = '\\' then
      match rest with
      | [] => none
      | (_, c2) :: rest2 =>
        if c2 = '\n' then none
        else
          match scanStrBody rest2 with
          | some (body, stop) => some (c :: c2 :: body, stop)
          | none => none
    else
      match scanStrBody rest with
      | some (body, stop) => some (c :: body, stop)
      | none => none

/-- Unanchored leftmost search of the SINGLE string regex: tries every `"`
as a candidate opening quote.  Returns the captured body and the byte
offset of the closing quote (the end of capture group 1). -/
def findSingleMatch : List (Nat × Char) → Option (String × Nat)
  | [] => none
  | (j, c) :: rest =>
    if c = '"' then
      match scanStrBody rest with
      | some (body, stop) => some (String.mk body, stop)
      | none => findSingleMatch rest
    else findSingleMatch rest

/-- Mirror of `BLOCK_START.is_match_at`: is there a `"""` anywhere at or
after the current position? -/
def hasTripleQuote : List (Nat × Char) → Bool
  | (_, a) :: (p2, b) :: (p3, c) :: rest =>
    if a = '"' && b = '"' && c = '"' then true
    else hasTripleQuote ((p2, b) :: (p3, c) :: rest)
  | _ => false

/-- Body scan of the BLOCK string regex `"""((?:\\.|[^"\\])*)"""` after
the opening triple quote: same units as the single-quote body; the body
stops at the first `"`, which must start a closing `"""`.  Returns the
body characters and the byte offset one past the closing triple quote. -/
def scanBlockBody : List (Nat × Char) → Option (List Char × Nat)
  | [] => none
  | (_, c) :: rest =>
    if c = '"' then
      match rest with
      | (_, c2) :: (j3, c3) :: _ =>
        if c2 = '"' && c3 = '"' then some ([], j3 + 1) else none
      | _ => none
    else if c = '\\' then
      match rest with
      | [] => none
      | (_, c2) :: rest2 =>
        if c2 = '\n' then none
        else
          match scanBlockBody rest2 with
          | some (body, stop) => some (c :: c2 :: body, stop)
          | none => none
    else
      match scanBlockBody rest with
      | some (body, stop) => some (c :: body, stop)
      | none => none

/-- Unanchored leftmost search of the BLOCK string regex: tries every
`"""` as a candidate opening.  Returns (match start, match end, body). -/
def findBlockMatch : List (Nat × Char) → Option (Nat × Nat × List Char)
  | [] => none
  | (j, c) :: rest =>
    if c = '"' then
      match rest with
      | (_, c2) :: (_, c3) :: rest3 =>
        if c2 = '"' && c3 = '"' then
          match scanBlockBody rest3 with
          | some (body, stop) => some (j, stop, body)
          | none => findBlockMatch rest
        else findBlockMatch rest
      | _ => none
    else findBlockMatch rest

/-- Mirror of `SPREAD.is_match_at` where SPREAD is the regex `...`: the
dot matches any character except a newline, so the regex matches anywhere
three consecutive non-newline characters occur at or after the current
position. -/
def spreadMatch : List (Nat × Char) → Bool
  | (_, a) :: (p2, b) :: (p3, c) :: rest =>
    if a != '\n' && b != '\n' && c != '\n' then true
    else spreadMatch ((p2, b) :: (p3, c) :: rest)
  | _ => false

/-- Mirror of Rust `str::lines().count()` on the matched substring (used
by the block-string branch to advance the line counter). -/
def rustLinesCount (s : List Char) : Nat :=
  let nl := s.count '\n'
  if s.isEmpty then 0
  else if s.getLast? = some '\n' then nl else nl + 1

/-- Lexer state, mirroring the `Lexer` struct of `lexer.rs`.  `raw` is the
full input; `input` is the remaining `Peekable<CharIndices>` as a list of
(byte offset, character) pairs. -/
structure LexerState where
  raw : List Char
  input : List (Nat × Char)
  initialized : Bool
  ended : Bool
  position : Nat
  line : Nat
  col : Nat
deriving Repr

/-- Mirror of `Lexer::new`. -/
def LexerState.new (input : String) : LexerState :=
  { raw := input.data
    input := charIndicesFrom 0 input.data
    initialized := false
    ended := false
    position := 0
    line := 1
    col := 1 }

/-- Mirror of `get_current_location`. -/
def LexerState.get_current_location (st : LexerState) : Location :=
  Location.new st.position st.line st.col

/-- Mirror of `advance`: consume one input element, bump position and
column. -/
def LexerState.advance (st : LexerState) : LexerState :=
  { st with input := st.input.tail, position := st.position + 1, col := st.col + 1 }

/-- Mirror of `advance_n`. -/
def LexerState.advance_n (st : LexerState) (n : Nat) : LexerState :=
  let p := st.position + n
  { st with
    position := p
    col := st.col + n
    input := (iterPosition (fun pr => pr.1 == p - 1) st.input).2 }

/-- Mirror of `advance_to`. -/
def LexerState.advance_to (st : LexerState) (pos : Nat) : LexerState :=
  { st with
    position := pos
    col := pos
    input := (iterPosition (fun pr => pr.1 == pos - 1) st.input).2 }

/-- Mirror of `lex_bang`. -/
def lex_bang (st : LexerState) : LexerItem × LexerState :=
  (.ok (.Bang st.get_current_location), st.advance)

/-- Mirror of `lex_dollar`. -/
def lex_dollar (st : LexerState) : LexerItem × LexerState :=
  (.ok (.Dollar st.get_current_location), st.advance)

/-- Mirror of `lex_ampersand`. -/
def lex_ampersand (st : LexerState) : LexerItem × LexerState :=
  (.ok (.Amp st.get_current_location), st.advance)

/-- Mirror of `lex_pipe`. -/
def lex_pipe (st : LexerState) : LexerItem × LexerState :=
  (.ok (.Pipe st.get_current_location), st.advance)

/-- Mirror of `lex_at`. -/
def lex_at (st : LexerState) : LexerItem × LexerState :=
  (.ok (.At st.get_current_location), st.advance)

/-- Mirror of `lex_colon`. -/
def lex_colon (st : LexerState) : LexerItem × LexerState :=
  (.ok (.Colon st.get_current_location), st.advance)

/-- Mirror of `lex_equals`. -/
def lex_equals (st : LexerState) : LexerItem × LexerState :=
  (.ok (.Equals st.get_current_location), st.advance)

/-- Mirror of `lex_open_brace`. -/
def lex_open_brace (st : LexerState) : LexerItem × LexerState :=
  (.ok (.OpenBrace st.get_current_location), st.advance)

/-- Mirror of `lex_close_brace`. -/
def lex_close_brace (st : LexerState) : LexerItem × LexerState :=
  (.ok (.CloseBrace st.get_current_location), st.advance)

/-- Mirror of `lex_open_paren`. -/
def lex_open_paren (st : LexerState) : LexerItem × LexerState :=
  (.ok (.OpenParen st.get_current_location), st.advance)

/-- Mirror of `lex_close_paren`. -/
def lex_close_paren (st : LexerState) : LexerItem × LexerState :=
  (.ok (.CloseParen st.get_current_location), st.advance)

/-- Mirror of `lex_open_square`. -/
def lex_open_square (st : LexerState) : LexerItem × LexerState :=
  (.ok (.OpenSquare st.get_current_location), st.advance)

/-- Mirror of `lex_close_square`. -/
def lex_close_square (st : LexerState) : LexerItem × LexerState :=
  (.ok (.CloseSquare st.get_current_location), st.advance)

/-- Mirror of `make_unexpected_character_error`. -/
def make_unexpected_character_error (st : LexerState) : LexerItem × LexerState :=
  (.error (.UnexpectedCharacter st.get_current_location), { st with ended := true })

/-- Mirror of `make_conversion_error`. -/
def make_conversion_error (st : LexerState) (expected : String) : LexerItem × LexerState :=
  (.error (.UnableToConvert st.get_current_location expected), { st with ended := true })

/-- Mirror of `make_unknown_character_error`. -/
def make_unknown_character_error (st : LexerState) : LexerItem × LexerState :=
  (.error (.UnknownCharacter st.get_current_location), { st with ended := true })

/-- Mirror of `make_unmatched_quote_error` (note the `col + 1`). -/
def make_unmatched_quote_error (st : LexerState) : LexerItem × LexerState :=
  (.error (.UnmatchedQuote (Location.new st.position st.line (st.col + 1))),
    { st with ended := true })

/-- Count of the leading input characters accepted by `lex_name`'s loop
(`is_alphanumeric() || c == '_'`). -/
def takeAlnumCount : List (Nat × Char) → Nat
  | [] => 0
  | (_, c) :: rest =>
    if rustIsAlphanumeric c || c == '_' then takeAlnumCount rest + 1 else 0

/-- Mirror of `lex_name`.  The loop counts consumed characters in
`end_pos` (one per character, not per byte) and then slices the raw input
at `raw.get(init_pos..init_pos + end_pos)`, unwrapping the result — when
the slice boundary falls inside a multi-byte character, that `unwrap`
panics, modelled by `none`. -/
def lex_name (initPos : Nat) (st : LexerState) : Option (LexerItem × LexerState) :=
  let k := takeAlnumCount st.input
  let initCol := st.col
  let st1 := { st with input := st.input.drop k, position := st.position + k, col := st.col + k }
  match byteSlice st.raw initPos (initPos + k) with
  | some chars =>
    some (.ok (.Name (Location.new initPos st.line initCol) (String.mk chars)), st1)
  | none => none

/-- Mirror of `lex_string`, covering both the block (`"""`) and single
quote branches, including the quirky `position`/`col` bookkeeping of the
source (the block branch assigns the relative element count to
`self.position` and leaves `col` unchanged). -/
def lex_string (initPos : Nat) (st : LexerState) : LexerItem × LexerState :=
  if hasTripleQuote st.input then
    match findBlockMatch st.input with
    | some (start, stop, body) =>
      let found := iterPosition (fun pr => pr.1 == stop) st.input
      let st1 :=
        match found.1 with
        | some p => { st with position := p, input := found.2 }
        | none => { st with input := found.2 }
      let tok := Token.BlockStr (Location.new start st.line st.col) (String.mk body)
      let matchText : List Char := '"' :: '"' :: '"' :: (body ++ ['"', '"', '"'])
      (.ok tok, { st1 with line := st1.line + rustLinesCount matchText })
    | none => make_unmatched_quote_error st
  else
    match findSingleMatch st.input with
    | some (body, stop) =>
      let curCol := st.col
      let found := iterPosition (fun pr => pr.1 == stop) st.input
      let st1 :=
        match found.1 with
        | some p =>
          { st with position := st.position + p + 1, col := st.col + p + 1, input := found.2 }
        | none => { st with input := found.2 }
      (.ok (.Str (Location.new initPos st.line curCol) body), st1)
    | none => make_unmatched_quote_error st

/-- Mirror of `lex_number`: the FLOAT pattern is tried before the INT
pattern; an INT whose value overflows `i64` is an `UnableToConvert`
error (Rust `str::parse::<i64>` failing); the `f64` parse of a
`-?[0-9]+\.[0-9]+` match never fails. -/
def lex_number (initPos : Nat) (st : LexerState) : LexerItem × LexerState :=
  match findFloatMatch st.input with
  | some (_start, stop, neg, d1, d2) =>
    let curCol := st.col
    let v : Rat := (digitsToNat d1 : Rat) + (digitsToNat d2 : Rat) / ((10 : Rat) ^ d2.length)
    let value : F64 := ⟨if neg then -v else v⟩
    let st1 := st.advance_to stop
    (.ok (.Float (Location.new initPos st1.line curCol) value), st1)
  | none =>
    match findIntMatch st.input with
    | some (_start, stop, neg, ds) =>
      let n : Int := if neg then -(digitsToNat ds : Int) else (digitsToNat ds : Int)
      if -(2 ^ 63) ≤ n ∧ n ≤ 2 ^ 63 - 1 then
        (.ok (.Int st.get_current_location n), st.advance_to stop)
      else make_conversion_error st "Int"
    | none => make_conversion_error st "Int or Float"

/-- Mirror of `lex_ellipsis`. -/
def lex_ellipsis (st : LexerState) : LexerItem × LexerState :=
  if spreadMatch st.input then
    let curCol := st.col
    let curPos := st.position
    let st1 := st.advance_n 3
    (.ok (.Spread (Location.new curPos st1.line curCol)), st1)
  else make_unexpected_character_error st

/-- Mirror of `get_next_token`.  The three skipping helpers
(`ignore_whitespace`, `ignore_newline`, `ignore_comments`) recurse back
into `get_next_token`; they are inlined here and the recursion is bounded
by a fuel argument (callers pass `input.length + 1`, which always
suffices since every skipping step consumes at least one character).
`none` models a Rust panic. -/
def get_next_token : Nat → LexerState → Option (LexerItem × LexerState)
  | 0, _ => none
  | fuel + 1, st =>
    match st.input with
    | [] => some (.ok .End, { st with ended := true })
    | (i, c) :: _ =>
      if c = '!' then some (lex_bang st)
      else if c = '$' then some (lex_dollar st)
      else if c = '&' then some (lex_ampersand st)
      else if c = '|' then some (lex_pipe st)
      else if c = '@' then some (lex_at st)
      else if c = ':' then some (lex_colon st)
      else if c = '=' then some (lex_equals st)
      else if c = '\x7b' then some (lex_open_brace st)
      else if c = '\x7d' then some (lex_close_brace st)
      else if c = '(' then some (lex_open_paren st)
      else if c = ')' then some (lex_close_paren st)
      else if c = '[' then some (lex_open_square st)
      else if c = ']' then some (lex_close_square st)
      else if c = '#' then
        match iterFind (fun pr => pr.2 == '\n') st.input.tail with
        | (some (k, _), rest) => get_next_token fuel (LexerState.advance_to { st with input := rest } k)
        | (none, rest) => get_next_token fuel { st with input := rest }
      else if c = ' ' || c = '\t' || c = ',' then get_next_token fuel st.advance
      else if c = '\n' then
        get_next_token fuel
          { st with line := st.line + 1, col := 1, position := st.position + 1, input := st.input.tail }
      else if c = '"' then some (lex_string i st)
      else if isAsciiLetterChar c then lex_name i st
      else if c.isDigit || c = '-' then some (lex_number i st)
      else if c = '.' then some (lex_ellipsis st)
      else some (make_unknown_character_error st)

/-- Mirror of `Iterator::next` for the lexer.  The outer `Option` layer
(`none`) models a Rust panic inside the pull; `some (none, st)` models the
iterator answering `None` (sequence exhausted); `some (some item, st)`
models `Some(item)`. -/
def lexerNext (st : LexerState) : Option (Option LexerItem × LexerState) :=
  if st.ended then some (none, st)
  else if !st.initialized then some (some (.ok .Start), { st with initialized := true })
  else
    match st.input with
    | _ :: _ =>
      match get_next_token (st.input.length + 1) st with
      | some (item, st1) => some (some item, st1)
      | none => none
    | [] =>
      if !st.ended then some (some (.ok .End), { st with ended := true })
      else some (none, st)

/-- Pull items from the lexer until it answers `None`, panics, or the
fuel runs out.  The boolean records whether a panic occurred. -/
def lexRun : Nat → LexerState → List LexerItem × Bool
  | 0, _ => ([], false)
  | fuel + 1, st =>
    match lexerNext st with
    | none => ([], true)
    | some (none, _) => ([], false)
    | some (some item, st1) =>
      match lexRun fuel st1 with
      | (rest, p) => (item :: rest, p)

/-- All items the lexer yields for an input string, with a panic flag.
The fuel `length + 3` always suffices: every yielded token consumes at
least one input character, plus the `Start`/`End` bookends and the final
`None` pull. -/
def lexItems (s : String) : List LexerItem × Bool :=
  lexRun (s.data.length + 3) (LexerState.new s)

/-! Node model, mirroring `nodes.rs` (with the executable-definition nodes,
which the src/ snapshot does not contain, modelled from the spec). -/

/-- Mirror of `NameNode`. -/
structure NameNode where
  value : String
deriving Repr, DecidableEq

/-- Mirror of `NameNode::new`: fails on any token other than `Name`.
The `UnexpectedToken` payload carries the token's display string and
location (per the `error.rs` variant). -/
def NameNode.new (token : Token) : Except ParseError NameNode :=
  match token with
  | .Name _ value => .ok { value := value }
  | _ => .error (.UnexpectedToken "Token<Name>" token.toDisplay token.location)

/-- Mirror of `NameNode::from`. -/
def NameNode.from (name : String) : NameNode :=
  { value := name }

/-- Mirror of `StringValueNode`. -/
structure StringValueNode where
  value : String
  block : Bool
deriving Repr, DecidableEq

/-- Mirror of `StringValueNode::new`: accepts `Str` and `BlockStr` tokens
only. -/
def StringValueNode.new (token : Token) : Except ParseError StringValueNode :=
  match token with
  | .Str _ val => .ok { value := val, block := false }
  | .BlockStr _ val => .ok { value := val, block := true }
  | _ => .error (.UnexpectedToken "Token<Str> or Token<BlockStr>" token.toDisplay token.location)

/-- Mirror of `StringValueNode::from`. -/
def StringValueNode.from (content : String) (block : Bool) : StringValueNode :=
  { value := content, block := block }

/-- Mirror of `NamedTypeNode`. -/
structure NamedTypeNode where
  name : NameNode
deriving Repr, DecidableEq

/-- Mirror of `NamedTypeNode::new`. -/
def NamedTypeNode.new (tok : Token) : Except ParseError NamedTypeNode :=
  (NameNode.new tok).map (fun n => { name := n })

/-- Mirror of `NamedTypeNode::from`. -/
def NamedTypeNode.from (name : String) : NamedTypeNode :=
  { name := NameNode.from name }

/-- Mirror of `TypeNode`.  The single-field wrapper `ListTypeNode
{ list_type: Rc<TypeNode> }` is inlined into the `List` constructor, and
the `Rc` indirections are dropped (Lean values are immutable trees). -/
inductive TypeNode where
  | Named : NamedTypeNode → TypeNode
  | List : TypeNode → TypeNode
  | NonNull : TypeNode → TypeNode
deriving Repr, DecidableEq

/-- Mirror of `VariableNode`. -/
structure VariableNode where
  name : NameNode
deriving Repr, DecidableEq

/-- Mirror of `VariableNode::new`. -/
def VariableNode.new (tok : Token) : Except ParseError VariableNode :=
  (NameNode.new tok).map (fun n => { name := n })

/-- Mirror of `IntValueNode`. -/
structure IntValueNode where
  value : Int
deriving Repr, DecidableEq

/-- Mirror of `FloatValueNode`. -/
structure FloatValueNode where
  value : F64
deriving Repr, DecidableEq

/-- Mirror of `BooleanValueNode`. -/
structure BooleanValueNode where
  value : Bool
deriving Repr, DecidableEq

/-- Mirror of `EnumValueNode`. -/
structure EnumValueNode where
  value : String
deriving Repr, DecidableEq

/-- Mirror of `ValueNode`.  The single-field wrappers `ListValueNode
{ values: Vec<ValueNode> }` and `ObjectValueNode
{ fields: Vec<ObjectFieldNode> }` are inlined into the `List`/`Object`
constructors, and `ObjectFieldNode { name, value }` becomes a pair. -/
inductive ValueNode where
  | Variable : VariableNode → ValueNode
  | Int : IntValueNode → ValueNode
  | Float : FloatValueNode → ValueNode
  | Str : StringValueNode → ValueNode
  | Bool : BooleanValueNode → ValueNode
  | Null : ValueNode
  | Enum : EnumValueNode → ValueNode
  | List : List ValueNode → ValueNode
  | Object : List (NameNode × ValueNode) → ValueNode
deriving Repr

mutual

/-- Structural equality of `ValueNode`s, mirroring the derived
`PartialEq` of `nodes.rs` (field-wise; vectors element-wise). -/
def beqValueNode : ValueNode → ValueNode → Bool
  | .Variable a, .Variable b => a == b
  | .Int a, .Int b => a == b
  | .Float a, .Float b => a == b
  | .Str a, .Str b => a == b
  | .Bool a, .Bool b => a == b
  | .Null, .Null => true
  | .Enum a, .Enum b => a == b
  | .List a, .List b => beqValueNodeList a b
  | .Object a, .Object b => beqValueNodeFields a b
  | _, _ => false

/-- Element-wise equality of value lists. -/
def beqValueNodeList : List ValueNode → List ValueNode → Bool
  | [], [] => true
  | a :: as, b :: bs => beqValueNode a b && beqValueNodeList as bs
  | _, _ => false

/-- Element-wise equality of object-value field lists. -/
def beqValueNodeFields : List (NameNode × ValueNode) → List (NameNode × ValueNode) → Bool
  | [], [] => true
  | (n, v) :: as, (m, w) :: bs => n == m && beqValueNode v w && beqValueNodeFields as bs
  | _, _ => false

end

instance : BEq ValueNode := ⟨beqValueNode⟩

/-- Mirror of `Argument`. -/
structure Argument where
  name : NameNode
  value : ValueNode
deriving Repr

/-- Equality of arguments, mirroring derived `PartialEq`. -/
def beqArgument (a b : Argument) : Bool :=
  a.name == b.name && a.value == b.value

instance : BEq Argument := ⟨beqArgument⟩

/-- Mirror of the `Arguments` type alias. -/
abbrev Arguments := List Argument

/-- Mirror of `DirectiveNode` (arguments are `Option<Vec<Argument>>`). -/
structure DirectiveNode where
  name : NameNode
  arguments : Option Arguments
deriving Repr

/-- Equality of directives, mirroring derived `PartialEq`. -/
def beqDirectiveNode (a b : DirectiveNode) : Bool :=
  a.name == b.name && a.arguments == b.arguments

instance : BEq DirectiveNode := ⟨beqDirectiveNode⟩

/-- Mirror of `DirectiveNode::new`. -/
def DirectiveNode.new (name : Token) (arguments : Option Arguments) :
    Except ParseError DirectiveNode :=
  (NameNode.new name).map (fun n => { name := n, arguments := arguments })

/-- Mirror of the `Description` type alias. -/
abbrev Description := Option StringValueNode

/-- Mirror of the `Directives` type alias. -/
abbrev Directives := List DirectiveNode

/-- Mirror of `InputValueDefinitionNode`. -/
structure InputValueDefinitionNode where
  description : Description
  name : NameNode
  input_type : TypeNode
  default_value : Option ValueNode
  directives : Option Directives
deriving Repr

/-- Equality of input-value definitions, mirroring derived `PartialEq`. -/
def beqInputValueDefinitionNode (a b : InputValueDefinitionNode) : Bool :=
  a.description == b.description && a.name == b.name && a.input_type == b.input_type &&
    a.default_value == b.default_value && a.directives == b.directives

instance : BEq InputValueDefinitionNode := ⟨beqInputValueDefinitionNode⟩

/-- Mirror of the `ArgumentDefinitions` type alias. -/
abbrev ArgumentDefinitions := List InputValueDefinitionNode

/-- Mirror of `InputValueDefinitionNode::new`. -/
def InputValueDefinitionNode.new (name : Token) (input_type : TypeNode)
    (description : Description) : Except ParseError InputValueDefinitionNode :=
  (NameNode.new name).map (fun n =>
    { description := description
      name := n
      input_type := input_type
      default_value := none
      directives := none })

/-- Mirror of `InputValueDefinitionNode::with_default_value`. -/
def InputValueDefinitionNode.with_default_value (self : InputValueDefinitionNode)
    (default_value : Option ValueNode) : InputValueDefinitionNode :=
  { self with default_value := default_value }

/-- Mirror of `InputValueDefinitionNode::with_directives`. -/
def InputValueDefinitionNode.with_directives (self : InputValueDefinitionNode)
    (directives : Option Directives) : InputValueDefinitionNode :=
  { self with directives := directives }

/-- Mirror of `FieldDefinitionNode`. -/
structure FieldDefinitionNode where
  description : Description
  name : NameNode
  arguments : Option ArgumentDefinitions
  field_type : TypeNode
deriving Repr

/-- Equality of field definitions, mirroring the derived `PartialEq` of
`nodes.rs`: all four components (description, name, arguments, type) are
compared — this is full structural equality, not name-only equality. -/
def beqFieldDefinitionNode (a b : FieldDefinitionNode) : Bool :=
  a.description == b.description && a.name == b.name && a.arguments == b.arguments &&
    a.field_type == b.field_type

instance : BEq FieldDefinitionNode := ⟨beqFieldDefinitionNode⟩

/-- Mirror of `FieldDefinitionNode::new`. -/
def FieldDefinitionNode.new (name : Token) (field_type : TypeNode)
    (description : Description) (arguments : Option ArgumentDefinitions) :
    Except ParseError FieldDefinitionNode :=
  (NameNode.new name).map (fun n =>
    { description := description
      name := n
      arguments := arguments
      field_type := field_type })

/-- Mirror of `EnumValueDefinitionNode`. -/
structure EnumValueDefinitionNode where
  description : Description
  name : NameNode
  directives : Option Directives
deriving Repr

/-- Mirror of `EnumValueDefinitionNode::new`. -/
def EnumValueDefinitionNode.new (name : Token) (description : Description)
    (directives : Option Directives) : Except ParseError EnumValueDefinitionNode :=
  (NameNode.new name).map (fun n =>
    { description := description, name := n, directives := directives })

/-- Mirror of `ScalarTypeDefinitionNode`. -/
structure ScalarTypeDefinitionNode where
  description : Description
  name : NameNode
  directives : Option Directives
deriving Repr

/-- Mirror of `ScalarTypeDefinitionNode::new`. -/
def ScalarTypeDefinitionNode.new (tok : Token) (description : Description) :
    Except ParseError ScalarTypeDefinitionNode :=
  (NameNode.new tok).map (fun n =>
    { description := description, name := n, directives := none })

/-- Mirror of `ScalarTypeDefinitionNode::with_directives`. -/
def ScalarTypeDefinitionNode.with_directives (self : ScalarTypeDefinitionNode)
    (directives : Option Directives) : ScalarTypeDefinitionNode :=
  { self with directives := directives }

/-- Mirror of `ObjectTypeDefinitionNode`. -/
structure ObjectTypeDefinitionNode where
  description : Description
  name : NameNode
  interfaces : Option (List NamedTypeNode)
  directives : Option Directives
  fields : List FieldDefinitionNode
deriving Repr

/-- Modelled from the spec: the constructor of the current nodes module is
not in the src/ snapshot (the `nodes.rs` there predates the
location-carrying `ObjectEmpty` variant that `error.rs` and `ast.rs`
use).  Per the stale `nodes.rs` the constructor rejects an empty field
list, and per spec §3 and the `error.rs` doctest the `ObjectEmpty` error
carries the location of the offending name token. -/
def ObjectTypeDefinitionNode.new (tok : Token) (description : Description)
    (fields : List FieldDefinitionNode) : Except ParseError ObjectTypeDefinitionNode :=
  if fields.isEmpty then .error (.ObjectEmpty tok.location)
  else
    (NameNode.new tok).map (fun n =>
      { description := description
        name := n
        interfaces := none
        directives := none
        fields := fields })

/-- Mirror of `ObjectTypeDefinitionNode::with_interfaces`. -/
def ObjectTypeDefinitionNode.with_interfaces (self : ObjectTypeDefinitionNode)
    (interfaces : Option (List NamedTypeNode)) : ObjectTypeDefinitionNode :=
  { self with interfaces := interfaces }

/-- Mirror of `ObjectTypeDefinitionNode::with_directives`. -/
def ObjectTypeDefinitionNode.with_directives (self : ObjectTypeDefinitionNode)
    (directives : Option Directives) : ObjectTypeDefinitionNode :=
  { self with directives := directives }

/-- Mirror of the `NodeWithFields` impl for `ObjectTypeDefinitionNode`. -/
def ObjectTypeDefinitionNode.get_fields (self : ObjectTypeDefinitionNode) :
    List FieldDefinitionNode :=
  self.fields

/-- Mirror of `ObjectTypeExtensionNode` (the version in
`nodes/object_type_extension.rs`). -/
structure ObjectTypeExtensionNode where
  description : Description
  name : NameNode
  interfaces : Option (List NamedTypeNode)
  directives : Option Directives
  fields : Option (List FieldDefinitionNode)
deriving Repr

/-- Mirror of `ObjectTypeExtensionNode::new`. -/
def ObjectTypeExtensionNode.new (tok : Token) (description : Description) :
    Except ParseError ObjectTypeExtensionNode :=
  (NameNode.new tok).map (fun n =>
    { description := description
      name := n
      interfaces := none
      directives := none
      fields := none })

/-- Mirror of `ObjectTypeExtensionNode::with_interfaces`. -/
def ObjectTypeExtensionNode.with_interfaces (self : ObjectTypeExtensionNode)
    (interfaces : Option (List NamedTypeNode)) : ObjectTypeExtensionNode :=
  { self with interfaces := interfaces }

/-- Mirror of `ObjectTypeExtensionNode::with_directives`. -/
def ObjectTypeExtensionNode.with_directives (self : ObjectTypeExtensionNode)
    (directives : Option Directives) : ObjectTypeExtensionNode :=
  { self with directives := directives }

/-- Mirror of `ObjectTypeExtensionNode::with_fields` (wraps in `Some`). -/
def ObjectTypeExtensionNode.with_fields (self : ObjectTypeExtensionNode)
    (fields : List FieldDefinitionNode) : ObjectTypeExtensionNode :=
  { self with fields := some fields }

/-- Mirror of the `NodeWithFields` impl for `ObjectTypeExtensionNode`:
absent fields behave as an empty slice. -/
def ObjectTypeExtensionNode.get_fields (self : ObjectTypeExtensionNode) :
    List FieldDefinitionNode :=
  match self.fields with
  | some fields => fields
  | none => []

/-- Mirror of `InputTypeDefinitionNode`. -/
structure InputTypeDefinitionNode where
  description : Description
  name : NameNode
  fields : List InputValueDefinitionNode
deriving Repr

/-- Mirror of `InputTypeDefinitionNode::new`. -/
def InputTypeDefinitionNode.new (name_tok : Token) (description : Description) :
    Except ParseError InputTypeDefinitionNode :=
  (NameNode.new name_tok).map (fun n =>
    { description := description, name := n, fields := [] })

/-- Mirror of `InputTypeDefinitionNode::with_fields`. -/
def InputTypeDefinitionNode.with_fields (self : InputTypeDefinitionNode)
    (fields : List InputValueDefinitionNode) : InputTypeDefinitionNode :=
  { self with fields := fields }

/-- Mirror of `InterfaceTypeDefinitionNode`. -/
structure InterfaceTypeDefinitionNode where
  description : Description
  name : NameNode
  directives : Option Directives
  fields : List FieldDefinitionNode
deriving Repr

/-- Mirror of `InterfaceTypeDefinitionNode::new`. -/
def InterfaceTypeDefinitionNode.new (tok : Token) (description : Description) :
    Except ParseError InterfaceTypeDefinitionNode :=
  (NameNode.new tok).map (fun n =>
    { description := description, name := n, directives := none, fields := [] })

/-- Mirror of `InterfaceTypeDefinitionNode::with_fields`. -/
def InterfaceTypeDefinitionNode.with_fields (self : InterfaceTypeDefinitionNode)
    (fields : List FieldDefinitionNode) : InterfaceTypeDefinitionNode :=
  { self with fields := fields }

/-- Mirror of `InterfaceTypeDefinitionNode::with_directives`. -/
def InterfaceTypeDefinitionNode.with_directives (self : InterfaceTypeDefinitionNode)
    (directives : Option Directives) : InterfaceTypeDefinitionNode :=
  { self with directives := directives }

/-- Mirror of `EnumTypeDefinitionNode`. -/
structure EnumTypeDefinitionNode where
  description : Description
  name : NameNode
  directives : Option Directives
  values : List EnumValueDefinitionNode
deriving Repr

/-- Mirror of `EnumTypeDefinitionNode::new`. -/
def EnumTypeDefinitionNode.new (tok : Token) (description : Description)
    (directives : Option Directives) (values : List EnumValueDefinitionNode) :
    Except ParseError EnumTypeDefinitionNode :=
  (NameNode.new tok).map (fun n =>
    { description := description, name := n, directives := directives, values := values })

/-- Mirror of `UnionTypeDefinitionNode`. -/
structure UnionTypeDefinitionNode where
  description : Description
  name : NameNode
  directives : Option Directives
  types : List NamedTypeNode
deriving Repr

/-- Mirror of `UnionTypeDefinitionNode::new`. -/
def UnionTypeDefinitionNode.new (tok : Token) (description : Description)
    (directives : Option Directives) (types : List NamedTypeNode) :
    Except ParseError UnionTypeDefinitionNode :=
  (NameNode.new tok).map (fun n =>
    { description := description, name := n, directives := directives, types := types })

/-- Mirror of `SchemaDefinitionNode` (the constant `kind` field is
dropped; it always holds `"SchemaDefinition"`). -/
structure SchemaDefinitionNode where
  description : Description
deriving Repr

/-- Mirror of `TypeDefinitionNode`. -/
inductive TypeDefinitionNode where
  | Scalar : ScalarTypeDefinitionNode → TypeDefinitionNode
  | Object : ObjectTypeDefinitionNode → TypeDefinitionNode
  | Interface : InterfaceTypeDefinitionNode → TypeDefinitionNode
  | Union : UnionTypeDefinitionNode → TypeDefinitionNode
  | Enum : EnumTypeDefinitionNode → TypeDefinitionNode
  | Input : InputTypeDefinitionNode → TypeDefinitionNode
deriving Repr

/-- Mirror of `TypeSystemDefinitionNode`. -/
inductive TypeSystemDefinitionNode where
  | Schema : SchemaDefinitionNode → TypeSystemDefinitionNode
  | Type : TypeDefinitionNode → TypeSystemDefinitionNode
deriving Repr

/-- Mirror of `TypeSystemExtensionNode`. -/
inductive TypeSystemExtensionNode where
  | Object : ObjectTypeExtensionNode → TypeSystemExtensionNode
deriving Repr

/-- Modelled from the spec: `VariableDefinitionNode { variable,
variable_type, default_value }` (spec §3 "Executable side" and the
construction site in `parse_variable_definition` of `ast.rs`); the node
definition itself is not in the src/ snapshot. -/
structure VariableDefinitionNode where
  «variable» : VariableNode
  variable_type : TypeNode
  default_value : Option ValueNode
deriving Repr

mutual

/-- Modelled from the spec: `Selection = Field(FieldNode) |
Fragment(FragmentSpread)` (spec §3); not in the src/ snapshot. -/
inductive Selection where
  | Field : FieldNode → Selection
  | Fragment : FragmentSpread → Selection

/-- Modelled from the spec: `FieldNode { name, alias: optional,
arguments, directives, selections: optional nested Selections }`
(spec §3); not in the src/ snapshot. -/
inductive FieldNode where
  | mk : (name : NameNode) → («alias» : Option NameNode) → (arguments : Option Arguments) →
      (directives : Option Directives) → (selections : Option (List Selection)) → FieldNode

/-- Modelled from the spec: `FragmentSpread = Node(FragmentSpreadNode) |
Inline(InlineFragmentSpreadNode)` (spec §3); not in the src/ snapshot. -/
inductive FragmentSpread where
  | Node : FragmentSpreadNode → FragmentSpread
  | Inline : InlineFragmentSpreadNode → FragmentSpread

/-- Modelled from the spec: `FragmentSpreadNode { name, directives }`
(construction site `parse_fragment_spread_node` in `ast.rs`); not in the
src/ snapshot. -/
inductive FragmentSpreadNode where
  | mk : (name : NameNode) → (directives : Option Directives) → FragmentSpreadNode

/-- Modelled from the spec: `InlineFragmentSpreadNode { node_type:
optional, directives, selections }` (construction sites in `ast.rs`); not
in the src/ snapshot. -/
inductive InlineFragmentSpreadNode where
  | mk : (node_type : Option NamedTypeNode) → (directives : Option Directives) →
      (selections : List Selection) → InlineFragmentSpreadNode

end

/-- Modelled from the spec: `QueryDefinitionNode { name: optional
NameNode, variables: ordered VariableDefinitionNode list, selections }`
(spec §3); not in the src/ snapshot. -/
structure QueryDefinitionNode where
  name : Option NameNode
  «variables» : List VariableDefinitionNode
  selections : List Selection

/-- Modelled from the spec: `FragmentDefinitionNode { name, node_type,
directives, selections }` (spec §3); not in the src/ snapshot. -/
structure FragmentDefinitionNode where
  name : NameNode
  node_type : NamedTypeNode
  directives : Option Directives
  selections : List Selection

/-- Modelled from the spec: `FragmentDefinitionNode::new(name, node_type)`
builder used by `parse_fragment_definition`. -/
def FragmentDefinitionNode.new (name node_type : Token) :
    Except ParseError FragmentDefinitionNode :=
  match NameNode.new name with
  | .error e => .error e
  | .ok n =>
    match NamedTypeNode.new node_type with
    | .error e => .error e
    | .ok t => .ok { name := n, node_type := t, directives := none, selections := [] }

/-- Modelled from the spec: chained builder `with_directives`. -/
def FragmentDefinitionNode.with_directives (self : FragmentDefinitionNode)
    (directives : Option Directives) : FragmentDefinitionNode :=
  { self with directives := directives }

/-- Modelled from the spec: chained builder `with_selections`. -/
def FragmentDefinitionNode.with_selections (self : FragmentDefinitionNode)
    (selections : List Selection) : FragmentDefinitionNode :=
  { self with selections := selections }

/-- Modelled from the spec: `FieldNode::new(tok)` builds a field with the
given name token and everything else absent (`parse_field_node` then
fills the optional parts with the `with_*` builders). -/
def FieldNode.new (tok : Token) : Except ParseError FieldNode :=
  (NameNode.new tok).map (fun n => FieldNode.mk n none none none none)

/-- Modelled from the spec: `with_alias` resolves the alias token to a
name (failing on a non-name token, hence the `?` at its use site). -/
def FieldNode.with_alias (self : FieldNode) (tok : Token) : Except ParseError FieldNode :=
  match self with
  | .mk n _ args dirs sels =>
    (NameNode.new tok).map (fun a => FieldNode.mk n (some a) args dirs sels)

/-- Modelled from the spec: `with_arguments` setter. -/
def FieldNode.with_arguments (self : FieldNode) (arguments : Option Arguments) : FieldNode :=
  match self with
  | .mk n a _ dirs sels => FieldNode.mk n a arguments dirs sels

/-- Modelled from the spec: `with_directives` setter. -/
def FieldNode.with_directives (self : FieldNode) (directives : Option Directives) : FieldNode :=
  match self with
  | .mk n a args _ sels => FieldNode.mk n a args directives sels

/-- Modelled from the spec: `with_selections` setter (wraps in `Some`). -/
def FieldNode.with_selections (self : FieldNode) (selections : List Selection) : FieldNode :=
  match self with
  | .mk n a args dirs _ => FieldNode.mk n a args dirs (some selections)

/-- Modelled from the spec: `OperationTypeNode` with its only current
variant `Query` (see `parse_operation_type` in `ast.rs`). -/
inductive OperationTypeNode where
  | Query : QueryDefinitionNode → OperationTypeNode

/-- Modelled from the spec: `ExecutableDefinitionNode = Operation |
Fragment`. -/
inductive ExecutableDefinitionNode where
  | Operation : OperationTypeNode → ExecutableDefinitionNode
  | Fragment : FragmentDefinitionNode → ExecutableDefinitionNode

/-- Mirror of `DefinitionNode` (with the `Executable` variant used by the
current `ast.rs`). -/
inductive DefinitionNode where
  | Executable : ExecutableDefinitionNode → DefinitionNode
  | TypeSystem : TypeSystemDefinitionNode → DefinitionNode
  | Extension : TypeSystemExtensionNode → DefinitionNode

/-- Mirror of `Document` (`document.rs`). -/
structure Document where
  definitions : List DefinitionNode

/-- Mirror of `Document::new`. -/
def Document.new (definitions : List DefinitionNode) : Document :=
  { definitions := definitions }

/-! Validation, mirroring `validation.rs`. -/

/-- Mirror of `contains_any_element`: is any needle contained (by
`PartialEq`) in the haystack? -/
def contains_any_element {α : Type} [BEq α] (haystack needles : List α) : Bool :=
  needles.any (fun needle => haystack.contains needle)

/-- Mirror of `validate_extension_fields_against_original`, applied to the
`get_fields()` projections of the two `NodeWithFields` arguments.  Note
the membership test is `Vec::contains`, i.e. full structural equality of
`FieldDefinitionNode`s. -/
def validate_extension_fields_against_original
    (extensionFields originalFields : List FieldDefinitionNode) :
    Except ValidationError Unit :=
  if contains_any_element originalFields extensionFields then
    let conflicting_names := String.intercalate ", "
      ((extensionFields.filter (fun needle => originalFields.contains needle)).map
        (fun f => f.name.value))
    .error (ValidationError.new ("Invalid Extension: Cannot redefine field(s) " ++ conflicting_names))
  else .ok ()

/-- Mirror of the `ValidNode` impl for `ObjectTypeExtensionNode`. -/
def ObjectTypeExtensionNode.validate (self : ObjectTypeExtensionNode) :
    Except ValidationError Unit :=
  if !(self.directives.isNone && self.interfaces.isNone && self.fields.isNone) then .ok ()
  else .error (ValidationError.new
    "Object Extension must have at least one of the following: Directive, Interface, or Field")

/-- Mirror of the `ValidExtensionNode<ObjectTypeDefinitionNode>` impl for
`ObjectTypeExtensionNode`. -/
def ObjectTypeExtensionNode.validate_extension (self : ObjectTypeExtensionNode)
    (original : Option ObjectTypeDefinitionNode) : Except ValidationError Unit :=
  match original with
  | some obj =>
    match validate_extension_fields_against_original self.get_fields obj.get_fields with
    | .ok _ => .ok ()
    | .error e => .error e
  | none =>
    .error (ValidationError.new
      ("Invalid Object Extension " ++ self.name.value ++ ": No type of name " ++
        self.name.value ++ " in schema"))

/-! Parser, mirroring `ast.rs`.

The Rust `AST` owns a `Peekable<Lexer>` and pulls tokens lazily.  The
lexer is a deterministic function of the input, so the pulled items are
exactly a prefix of `lexItems input`; we model the token source as that
item list together with the panic flag: pulling past the end of the list
answers `None` (→ `ParseError::EOF`) when the flag is clear and panics
when it is set — exactly what the lazy lexer would do on that pull.

Parser computations live in `PM α`: a state monad over the token source
whose result layer is `Except ParseError` (Rust `ParseResult`) under an
outer `Option` in which `none` models a Rust panic (and fuel exhaustion
of the model's recursion bound, which the top-level entry points never
reach). -/

/-- Token source state: the items the lexer yields, plus whether the
lexer panics after them. -/
structure ASTState where
  items : List LexerItem
  panicked : Bool
deriving Repr

/-- Parser monad: state over `ASTState`, `ParseResult` errors, and an
outer `Option` whose `none` models a Rust panic / exhausted model fuel. -/
abbrev PM (α : Type) := StateT ASTState (ExceptT ParseError Option) α

/-- Fuel exhaustion (the top-level entry points supply enough fuel for
any input, so this value is unreachable from them). -/
def noFuel {α : Type} : PM α := fun _ => none

/-- Lift a `ParseResult` value (e.g. a node constructor result) into the
parser monad, mirroring the `?` operator on a plain `Result`. -/
def ofResult {α : Type} (r : Except ParseError α) : PM α := fun st =>
  some (r.map (fun a => (a, st)))

/-- Mirror of `unwrap_next_token`: pull the next item; a lex error
becomes `ParseError::LexError`; an exhausted stream is `EOF` — unless the
lexer panics on this pull. -/
def unwrap_next_token : PM Token := fun st =>
  match st.items with
  | .ok tok :: rest => some (.ok (tok, { st with items := rest }))
  | .error e :: _ => some (.error (.LexError e))
  | [] => if st.panicked then none else some (.error .EOF)

/-- Mirror of `unwrap_peeked_token` (same contract, without consuming). -/
def unwrap_peeked_token : PM Token := fun st =>
  match st.items with
  | .ok tok :: _ => some (.ok (tok, st))
  | .error e :: _ => some (.error (.LexError e))
  | [] => if st.panicked then none else some (.error .EOF)

/-- Mirror of `expect_token`: pull the next token and compare variants
only (`is_same_type`); a mismatch is `UnexpectedToken` carrying display
strings and the received token's location. -/
def expect_token (tok : Token) : PM Token := fun st =>
  match st.items with
  | .ok actual :: rest =>
    if actual.is_same_type tok then some (.ok (actual, { st with items := rest }))
    else some (.error (.UnexpectedToken tok.toDisplay actual.toDisplay actual.location))
  | .error e :: _ => some (.error (.LexError e))
  | [] => if st.panicked then none else some (.error .EOF)

/-- Mirror of `expect_optional_token`: peek; consume and answer the token
only on a variant match; a peeked lex error or an exhausted stream answer
"absent" without consuming. -/
def expect_optional_token (tok : Token) : PM (Option Token) := fun st =>
  match st.items with
  | .ok actual :: rest =>
    if actual.is_same_type tok then some (.ok (some actual, { st with items := rest }))
    else some (.ok (none, st))
  | .error _ :: _ => some (.ok (none, st))
  | [] => if st.panicked then none else some (.ok (none, st))

/-- Mirror of `parse_description`: a leading `Str`/`BlockStr` token is
consumed as the description. -/
def parse_description : PM Description := do
  let tok ← unwrap_peeked_token
  match tok with
  | .BlockStr _ _ | .Str _ _ =>
    let t ← unwrap_next_token
    let s ← ofResult (StringValueNode.new t)
    pure (some s)
  | _ => pure none

/-- Mirror of `parse_variable`: `$` then a name. -/
def parse_variable : PM VariableNode := do
  _ ← expect_token (.Dollar Location.ignored)
  let name ← unwrap_next_token
  let n ← ofResult (NameNode.new name)
  pure { name := n }

mutual

/-- Mirror of the accumulation loop in `parse_definitions`: parse a
definition, stop once an `End` token is consumed. -/
def parse_definitions_loop : Nat → List DefinitionNode → PM (List DefinitionNode)
  | 0, _ => noFuel
  | fuel + 1, nodes => do
    let d ← parse_definition fuel
    let nodes1 := nodes ++ [d]
    match ← expect_optional_token .End with
    | some _ => pure nodes1
    | none => parse_definitions_loop fuel nodes1

/-- Mirror of `parse_definition`: dispatch on the keyword in the peeked
`Name` token, or an immediate `{` for an anonymous query. -/
def parse_definition : Nat → PM DefinitionNode
  | 0 => noFuel
  | fuel + 1 => do
    let description ← parse_description
    let tok ← unwrap_peeked_token
    match tok with
    | .Name _ val =>
      if val = "type" ∨ val = "enum" ∨ val = "union" ∨ val = "interface" ∨
          val = "input" ∨ val = "scalar" then do
        let t ← parse_type fuel description
        pure (.TypeSystem (.Type t))
      else if val = "extend" then do
        let e ← parse_type_extension fuel description
        pure (.Extension e)
      else if val = "query" ∨ val = "fragment" then do
        let e ← parse_executable fuel
        pure (.Executable e)
      else throw .BadValue
    | .OpenBrace _ => do
      let e ← parse_executable fuel
      pure (.Executable e)
    | _ => throw (.UnexpectedToken "Token<Name> or Token<OpenBrace>" tok.toDisplay tok.location)

/-- Mirror of `parse_type`: dispatch on the consumed keyword name. -/
def parse_type : Nat → Description → PM TypeDefinitionNode
  | 0, _ => noFuel
  | fuel + 1, description => do
    let tok ← unwrap_next_token
    match tok with
    | .Name _ val =>
      if val = "type" then do
        let o ← parse_object_type fuel description
        pure (.Object o)
      else if val = "enum" then do
        let e ← parse_enum_type fuel description
        pure (.Enum e)
      else if val = "union" then do
        let u ← parse_union_type fuel description
        pure (.Union u)
      else if val = "interface" then do
        let i ← parse_interface_type fuel description
        pure (.Interface i)
      else if val = "input" then do
        let i ← parse_input_type fuel description
        pure (.Input i)
      else if val = "scalar" then do
        let s ← parse_scalar_type fuel description
        pure (.Scalar s)
      else throw .BadValue
    | _ => throw (.UnexpectedToken "Token::Name" tok.toDisplay tok.location)

/-- Mirror of `parse_type_extension`: discard `extend`, require the
`type` keyword. -/
def parse_type_extension : Nat → Description → PM TypeSystemExtensionNode
  | 0, _ => noFuel
  | fuel + 1, description => do
    _ ← unwrap_next_token
    let tok ← unwrap_next_token
    match tok with
    | .Name _ "type" => do
      let o ← parse_object_type_extension fuel description
      pure (.Object o)
    | _ => throw (.UnexpectedToken "Token::Name" tok.toDisplay tok.location)

/-- Mirror of `parse_object_type`. -/
def parse_object_type : Nat → Description → PM ObjectTypeDefinitionNode
  | 0, _ => noFuel
  | fuel + 1, description => do
    let name_tok ← expect_token (.Name Location.ignored "")
    let interfaces ← parse_object_interfaces fuel
    let directives ← parse_directives fuel
    let fields ← parse_fields fuel
    let obj ← ofResult (ObjectTypeDefinitionNode.new name_tok description fields)
    pure ((obj.with_interfaces interfaces).with_directives directives)

/-- Mirror of `parse_object_type_extension`: the brace block is optional;
when present it is parsed and stored via `with_fields`. -/
def parse_object_type_extension : Nat → Description → PM ObjectTypeExtensionNode
  | 0, _ => noFuel
  | fuel + 1, description => do
    let name_tok ← unwrap_next_token
    let interfaces ← parse_object_interfaces fuel
    let directives ← parse_directives fuel
    let te ← ofResult (ObjectTypeExtensionNode.new name_tok description)
    let te1 := (te.with_interfaces interfaces).with_directives directives
    let tok ← unwrap_peeked_token
    match tok with
    | .OpenBrace _ => do
      let fields ← parse_fields fuel
      pure (te1.with_fields fields)
    | _ => pure te1

/-- Mirror of `parse_interface_type`. -/
def parse_interface_type : Nat → Description → PM InterfaceTypeDefinitionNode
  | 0, _ => noFuel
  | fuel + 1, description => do
    let name_tok ← expect_token (.Name Location.ignored "")
    let directives ← parse_directives fuel
    let fields ← parse_fields fuel
    let i ← ofResult (InterfaceTypeDefinitionNode.new name_tok description)
    pure ((i.with_directives directives).with_fields fields)

/-- Mirror of `parse_input_type`. -/
def parse_input_type : Nat → Description → PM InputTypeDefinitionNode
  | 0, _ => noFuel
  | fuel + 1, description => do
    let name_tok ← expect_token (.Name Location.ignored "")
    let it ← ofResult (InputTypeDefinitionNode.new name_tok description)
    let fields ← parse_input_fields fuel
    pure (it.with_fields fields)

/-- Mirror of `parse_scalar_type`. -/
def parse_scalar_type : Nat → Description → PM ScalarTypeDefinitionNode
  | 0, _ => noFuel
  | fuel + 1, description => do
    let name_tok ← expect_token (.Name Location.ignored "")
    let directives ← parse_directives fuel
    let s ← ofResult (ScalarTypeDefinitionNode.new name_tok description)
    pure (s.with_directives directives)

/-- Mirror of `parse_enum_type`: note the keyword-collision check applies
to the enum's *type name* token (via the token `PartialEq`, which
compares `Name` values only). -/
def parse_enum_type : Nat → Description → PM EnumTypeDefinitionNode
  | 0, _ => noFuel
  | fuel + 1, description => do
    let name_tok ← expect_token (.Name Location.ignored "enum")
    if Token.eqRust name_tok (.Name Location.ignored "true") ∨
        Token.eqRust name_tok (.Name Location.ignored "false") ∨
        Token.eqRust name_tok (.Name Location.ignored "null") then
      throw .BadValue
    else do
      let directives ← parse_directives fuel
      let values ← parse_enum_values fuel
      ofResult (EnumTypeDefinitionNode.new name_tok description directives values)

/-- Mirror of `parse_union_type`. -/
def parse_union_type : Nat → Description → PM UnionTypeDefinitionNode
  | 0, _ => noFuel
  | fuel + 1, description => do
    let name_tok ← expect_token (.Name Location.ignored "union")
    let directives ← parse_directives fuel
    _ ← expect_token (.Equals Location.ignored)
    let types ← parse_union_types fuel
    ofResult (UnionTypeDefinitionNode.new name_tok description directives types)

/-- Mirror of the interface-name loop of `parse_object_interfaces`: each
further name requires a literal `&`. -/
def parse_object_interfaces_loop : Nat → List NamedTypeNode → PM (List NamedTypeNode)
  | 0, _ => noFuel
  | fuel + 1, acc => do
    let interface_name ← expect_token (.Name Location.ignored "")
    let n ← ofResult (NamedTypeNode.new interface_name)
    let acc1 := acc ++ [n]
    match ← expect_optional_token (.Amp Location.ignored) with
    | none => pure acc1
    | some _ => parse_object_interfaces_loop fuel acc1

/-- Mirror of `parse_object_interfaces`: an optional `implements` keyword
followed by `&`-separated names; any other leading name is
`UnexpectedKeyword`. -/
def parse_object_interfaces : Nat → PM (Option (List NamedTypeNode))
  | 0 => noFuel
  | fuel + 1 => do
    match ← expect_optional_token (.Name Location.ignored "") with
    | some name_tok =>
      match name_tok with
      | .Name _ "implements" => do
        let names ← parse_object_interfaces_loop fuel []
        pure (some names)
      | .Name _ keyword => throw (.UnexpectedKeyword "implements" keyword name_tok.location)
      | tok => throw (.UnexpectedToken "Token<Name>" tok.toDisplay tok.location)
    | none => pure none

/-- Mirror of the loop of `parse_fields`. -/
def parse_fields_loop : Nat → List FieldDefinitionNode → PM (List FieldDefinitionNode)
  | 0, _ => noFuel
  | fuel + 1, acc => do
    match ← expect_optional_token (.CloseBrace Location.ignored) with
    | some _ => pure acc
    | none => do
      let f ← parse_field fuel
      parse_fields_loop fuel (acc ++ [f])

/-- Mirror of `parse_fields`: a brace-delimited, possibly empty field
list. -/
def parse_fields : Nat → PM (List FieldDefinitionNode)
  | 0 => noFuel
  | fuel + 1 => do
    _ ← expect_token (.OpenBrace Location.ignored)
    parse_fields_loop fuel []

/-- Mirror of `parse_field` (the `println!` debug line has no effect and
is dropped). -/
def parse_field : Nat → PM FieldDefinitionNode
  | 0 => noFuel
  | fuel + 1 => do
    let description ← parse_description
    let name ← expect_token (.Name Location.ignored "")
    let arguments ← parse_arguments_definition fuel
    _ ← expect_token (.Colon Location.ignored)
    let field_type ← parse_field_type fuel
    ofResult (FieldDefinitionNode.new name field_type description arguments)

/-- Mirror of `parse_field_type`: `[` recurses into the element type and
then requires `]`; otherwise a bare name; in either case one trailing `!`
wraps the type just parsed in `NonNull`.  The recursion happens before
the `!` check, so each `!` binds to the innermost type completed
immediately before it. -/
def parse_field_type : Nat → PM TypeNode
  | 0 => noFuel
  | fuel + 1 => do
    let o ← expect_optional_token (.OpenSquare Location.ignored)
    let field_type ←
      match o with
      | some _ => do
        let inner ← parse_field_type fuel
        _ ← expect_token (.CloseSquare Location.ignored)
        pure (TypeNode.List inner)
      | none => do
        let t ← expect_token (.Name Location.ignored "")
        let n ← ofResult (NamedTypeNode.new t)
        pure (TypeNode.Named n)
    match ← expect_optional_token (.Bang Location.ignored) with
    | some _ => pure (.NonNull field_type)
    | none => pure field_type

/-- Mirror of the loop of `parse_arguments_definition`: push first, then
check for the closing parenthesis. -/
def parse_arguments_definition_loop : Nat → List InputValueDefinitionNode →
    PM (List InputValueDefinitionNode)
  | 0, _ => noFuel
  | fuel + 1, acc => do
    let a ← parse_input_value fuel
    let acc1 := acc ++ [a]
    match ← expect_optional_token (.CloseParen Location.ignored) with
    | some _ => pure acc1
    | none => parse_arguments_definition_loop fuel acc1

/-- Mirror of `parse_arguments_definition`: an opened-then-immediately
closed argument list is `ArgumentEmpty` at the closing parenthesis. -/
def parse_arguments_definition : Nat → PM (Option ArgumentDefinitions)
  | 0 => noFuel
  | fuel + 1 => do
    match ← expect_optional_token (.OpenParen Location.ignored) with
    | some _ => do
      match ← expect_optional_token (.CloseParen Location.ignored) with
      | some token => throw (.ArgumentEmpty token.location)
      | none => do
        let args ← parse_arguments_definition_loop fuel []
        pure (some args)
    | none => pure none

/-- Mirror of `parse_input_value`. -/
def parse_input_value : Nat → PM InputValueDefinitionNode
  | 0 => noFuel
  | fuel + 1 => do
    let description ← parse_description
    let name_tok ← unwrap_next_token
    _ ← expect_token (.Colon Location.ignored)
    let type_node ← parse_field_type fuel
    let default_value ← parse_default_value fuel
    let directives ← parse_directives fuel
    let input_value ← ofResult (InputValueDefinitionNode.new name_tok type_node description)
    pure ((input_value.with_default_value default_value).with_directives directives)

/-- Mirror of the loop of `parse_input_fields`. -/
def parse_input_fields_loop : Nat → List InputValueDefinitionNode →
    PM (List InputValueDefinitionNode)
  | 0, _ => noFuel
  | fuel + 1, acc => do
    match ← expect_optional_token (.CloseBrace Location.ignored) with
    | some _ => pure acc
    | none => do
      let f ← parse_input_value fuel
      parse_input_fields_loop fuel (acc ++ [f])

/-- Mirror of `parse_input_fields`: non-empty required; `ObjectEmpty`
carries the location of the opening brace token. -/
def parse_input_fields : Nat → PM (List InputValueDefinitionNode)
  | 0 => noFuel
  | fuel + 1 => do
    let tok ← expect_token (.OpenBrace Location.ignored)
    let fields ← parse_input_fields_loop fuel []
    if fields.isEmpty then throw (.ObjectEmpty tok.location)
    else pure fields

/-- Mirror of the loop of `parse_enum_values`: each entry is an optional
description, a name, optional directives — with no check whatsoever on
the value name's text. -/
def parse_enum_values_loop : Nat → List EnumValueDefinitionNode →
    PM (List EnumValueDefinitionNode)
  | 0, _ => noFuel
  | fuel + 1, acc => do
    match ← expect_optional_token (.CloseBrace Location.ignored) with
    | some _ => pure acc
    | none => do
      let description ← parse_description
      let name ← expect_token (.Name Location.ignored "")
      let directives ← parse_directives fuel
      let v ← ofResult (EnumValueDefinitionNode.new name description directives)
      parse_enum_values_loop fuel (acc ++ [v])

/-- Mirror of `parse_enum_values`. -/
def parse_enum_values : Nat → PM (List EnumValueDefinitionNode)
  | 0 => noFuel
  | fuel + 1 => do
    _ ← expect_token (.OpenBrace Location.ignored)
    parse_enum_values_loop fuel []

/-- Mirror of the loop of `parse_union_types`: every further member
requires a `|`. -/
def parse_union_types_loop : Nat → List NamedTypeNode → PM (List NamedTypeNode)
  | 0, _ => noFuel
  | fuel + 1, acc => do
    match ← expect_optional_token (.Pipe Location.ignored) with
    | some _ => do
      let t ← unwrap_next_token
      let n ← ofResult (NamedTypeNode.new t)
      parse_union_types_loop fuel (acc ++ [n])
    | none => pure acc

/-- Mirror of `parse_union_types`: the first `|` is truly optional. -/
def parse_union_types : Nat → PM (List NamedTypeNode)
  | 0 => noFuel
  | fuel + 1 => do
    _ ← expect_optional_token (.Pipe Location.ignored)
    let t ← unwrap_next_token
    let n ← ofResult (NamedTypeNode.new t)
    parse_union_types_loop fuel [n]

/-- Mirror of `parse_default_value`: an optional `=` then a value. -/
def parse_default_value : Nat → PM (Option ValueNode)
  | 0 => noFuel
  | fuel + 1 => do
    match ← expect_optional_token (.Equals Location.ignored) with
    | some _ => do
      let v ← parse_value fuel
      pure (some v)
    | none => pure none

/-- Mirror of `parse_value`: `Name` special-cases `true`/`false`/`null`,
else a bare enum value; literals map directly; `$`, `[`, `{` recurse. -/
def parse_value : Nat → PM ValueNode
  | 0 => noFuel
  | fuel + 1 => do
    let tok ← unwrap_peeked_token
    match tok with
    | .Name _ value => do
      _ ← unwrap_next_token
      if value = "true" then pure (.Bool { value := true })
      else if value = "false" then pure (.Bool { value := false })
      else if value = "null" then pure .Null
      else pure (.Enum { value := value })
    | .Int _ value => do
      _ ← unwrap_next_token
      pure (.Int { value := value })
    | .Float _ value => do
      _ ← unwrap_next_token
      pure (.Float { value := value })
    | .Str _ _ | .BlockStr _ _ => do
      let str_tok ← unwrap_next_token
      let s ← ofResult (StringValueNode.new str_tok)
      pure (.Str s)
    | .Dollar _ => do
      let v ← parse_variable
      pure (.Variable v)
    | .OpenSquare _ => do
      let l ← parse_list_value fuel
      pure (.List l)
    | .OpenBrace _ => do
      let o ← parse_object_value fuel
      pure (.Object o)
    | _ =>
      throw (.UnexpectedToken "One of (Name, Int, Float, Str, Dollar, OpenSquare, OpenBrace)"
        tok.toDisplay tok.location)

/-- Mirror of the loop of `parse_list_value`. -/
def parse_list_value_loop : Nat → List ValueNode → PM (List ValueNode)
  | 0, _ => noFuel
  | fuel + 1, acc => do
    match ← expect_optional_token (.CloseSquare Location.ignored) with
    | some _ => pure acc
    | none => do
      let v ← parse_value fuel
      parse_list_value_loop fuel (acc ++ [v])

/-- Mirror of `parse_list_value` (the `ListValueNode` wrapper is the bare
value list). -/
def parse_list_value : Nat → PM (List ValueNode)
  | 0 => noFuel
  | fuel + 1 => do
    _ ← expect_token (.OpenSquare Location.ignored)
    parse_list_value_loop fuel []

/-- Mirror of the loop of `parse_object_value`. -/
def parse_object_value_loop : Nat → List (NameNode × ValueNode) →
    PM (List (NameNode × ValueNode))
  | 0, _ => noFuel
  | fuel + 1, acc => do
    match ← expect_optional_token (.CloseBrace Location.ignored) with
    | some _ => pure acc
    | none => do
      let name ← unwrap_next_token
      _ ← expect_token (.Colon Location.ignored)
      let value ← parse_value fuel
      let n ← ofResult (NameNode.new name)
      parse_object_value_loop fuel (acc ++ [(n, value)])

/-- Mirror of `parse_object_value` (the `ObjectValueNode` wrapper is the
bare field list). -/
def parse_object_value : Nat → PM (List (NameNode × ValueNode))
  | 0 => noFuel
  | fuel + 1 => do
    _ ← expect_token (.OpenBrace Location.ignored)
    parse_object_value_loop fuel []

/-- Mirror of the loop of `parse_directives`: collect while the next
token is `@`. -/
def parse_directives_loop : Nat → List DirectiveNode → PM (List DirectiveNode)
  | 0, _ => noFuel
  | fuel + 1, acc => do
    let tok ← unwrap_peeked_token
    match tok with
    | .At _ => do
      let d ← parse_directive fuel
      parse_directives_loop fuel (acc ++ [d])
    | _ => pure acc

/-- Mirror of `parse_directives`: `None` when no directive was found. -/
def parse_directives : Nat → PM (Option Directives)
  | 0 => noFuel
  | fuel + 1 => do
    let directives ← parse_directives_loop fuel []
    if directives.isEmpty then pure none else pure (some directives)

/-- Mirror of `parse_directive`: `@`, a name, optional arguments. -/
def parse_directive : Nat → PM DirectiveNode
  | 0 => noFuel
  | fuel + 1 => do
    _ ← expect_token (.At Location.ignored)
    let name ← unwrap_next_token
    let arguments ← parse_arguments fuel
    ofResult (DirectiveNode.new name arguments)

/-- Mirror of the loop of `parse_arguments`: the close-parenthesis check
comes first each iteration; a close with no arguments collected is
`ArgumentEmpty`. -/
def parse_arguments_loop : Nat → List Argument → PM (List Argument)
  | 0, _ => noFuel
  | fuel + 1, args => do
    match ← expect_optional_token (.CloseParen Location.ignored) with
    | some token =>
      if args.isEmpty then throw (.ArgumentEmpty token.location)
      else pure args
    | none => do
      let a ← parse_argument fuel
      parse_arguments_loop fuel (args ++ [a])

/-- Mirror of `parse_arguments`. -/
def parse_arguments : Nat → PM (Option Arguments)
  | 0 => noFuel
  | fuel + 1 => do
    match ← expect_optional_token (.OpenParen Location.ignored) with
    | some _ => do
      let args ← parse_arguments_loop fuel []
      pure (some args)
    | none => pure none

/-- Mirror of `parse_argument`: a name, `:`, a value. -/
def parse_argument : Nat → PM Argument
  | 0 => noFuel
  | fuel + 1 => do
    let name ← unwrap_next_token
    _ ← expect_token (.Colon Location.ignored)
    let value ← parse_value fuel
    let n ← ofResult (NameNode.new name)
    pure { name := n, value := value }

/-- Mirror of `parse_executable`: dispatch on `query`/`fragment` or an
anonymous query's `{`. -/
def parse_executable : Nat → PM ExecutableDefinitionNode
  | 0 => noFuel
  | fuel + 1 => do
    let tok ← unwrap_peeked_token
    match tok with
    | .Name _ val =>
      if val = "query" then do
        let o ← parse_operation_type fuel
        pure (.Operation o)
      else if val = "fragment" then do
        let f ← parse_fragment_definition fuel
        pure (.Fragment f)
      else throw .BadValue
    | .OpenBrace _ => do
      let q ← parse_anonymous_query fuel
      pure (.Operation (.Query q))
    | _ =>
      throw (.UnexpectedToken
        "One of 'query', 'mutation', 'subscription', 'fragment', or anonymous query"
        tok.toDisplay tok.location)

/-- Mirror of `parse_operation_type`: only the `query` keyword is
implemented. -/
def parse_operation_type : Nat → PM OperationTypeNode
  | 0 => noFuel
  | fuel + 1 => do
    let keyword ← unwrap_next_token
    match keyword with
    | .Name loc name =>
      if name = "query" then do
        let q ← parse_query fuel
        pure (.Query q)
      else throw (.UnexpectedKeyword "One of 'query'" "name" loc)
    | _ => throw (.UnexpectedToken "Token<Name>" keyword.toDisplay keyword.location)

/-- Mirror of `parse_query`: the token right after the `query` keyword is
unconditionally pulled as the query's name; the name is resolved to a
`NameNode` (wrapped in `Some`) only when the node is built, after the
variables and the selection set have parsed. -/
def parse_query : Nat → PM QueryDefinitionNode
  | 0 => noFuel
  | fuel + 1 => do
    let name ← unwrap_next_token
    let vars ← parse_variables fuel
    let selections ← parse_selection_set fuel
    let n ← ofResult (NameNode.new name)
    pure { name := some n, «variables» := vars, selections := selections }

/-- Mirror of the loop of `parse_variables`. -/
def parse_variables_loop : Nat → List VariableDefinitionNode → PM (List VariableDefinitionNode)
  | 0, _ => noFuel
  | fuel + 1, acc => do
    match ← expect_optional_token (.CloseParen Location.ignored) with
    | some _ => pure acc
    | none => do
      let v ← parse_variable_definition fuel
      parse_variables_loop fuel (acc ++ [v])

/-- Mirror of `parse_variables`: an optional parenthesized list. -/
def parse_variables : Nat → PM (List VariableDefinitionNode)
  | 0 => noFuel
  | fuel + 1 => do
    match ← expect_optional_token (.OpenParen Location.ignored) with
    | some _ => parse_variables_loop fuel []
    | none => pure []

/-- Mirror of `parse_variable_definition`. -/
def parse_variable_definition : Nat → PM VariableDefinitionNode
  | 0 => noFuel
  | fuel + 1 => do
    let v ← parse_variable
    _ ← expect_token (.Colon Location.ignored)
    let variable_type ← parse_field_type fuel
    match ← expect_optional_token (.Equals Location.ignored) with
    | some _ => do
      let value ← parse_value fuel
      pure { «variable» := v, variable_type := variable_type, default_value := some value }
    | none => pure { «variable» := v, variable_type := variable_type, default_value := none }

/-- Mirror of `parse_anonymous_query`: no name, no variables. -/
def parse_anonymous_query : Nat → PM QueryDefinitionNode
  | 0 => noFuel
  | fuel + 1 => do
    let selections ← parse_selection_set fuel
    pure { name := none, «variables» := [], selections := selections }

/-- Mirror of the loop of `parse_selection_set`. -/
def parse_selection_set_loop : Nat → List Selection → PM (List Selection)
  | 0, _ => noFuel
  | fuel + 1, acc => do
    match ← expect_optional_token (.CloseBrace Location.ignored) with
    | some _ => pure acc
    | none => do
      let s ← parse_selection fuel
      parse_selection_set_loop fuel (acc ++ [s])

/-- Mirror of `parse_selection_set`. -/
def parse_selection_set : Nat → PM (List Selection)
  | 0 => noFuel
  | fuel + 1 => do
    _ ← expect_token (.OpenBrace Location.ignored)
    parse_selection_set_loop fuel []

/-- Mirror of `parse_selection`: a field or a fragment spread; anything
else is `NotImplemented`. -/
def parse_selection : Nat → PM Selection
  | 0 => noFuel
  | fuel + 1 => do
    let tok ← unwrap_peeked_token
    match tok with
    | .Name _ _ => do
      let f ← parse_field_node fuel
      pure (.Field f)
    | .Spread _ => do
      let s ← parse_fragment_spread fuel
      pure (.Fragment s)
    | _ => throw .NotImplemented

/-- Mirror of `parse_field_node`: `[alias:] name [(args)] [@directives]
[{ nested selections }]`. -/
def parse_field_node : Nat → PM FieldNode
  | 0 => noFuel
  | fuel + 1 => do
    let name ← unwrap_next_token
    let field ←
      match ← expect_optional_token (.Colon Location.ignored) with
      | some _ => do
        let root ← unwrap_next_token
        let f ← ofResult (FieldNode.new root)
        ofResult (f.with_alias name)
      | none => ofResult (FieldNode.new name)
    let arguments ← parse_arguments fuel
    let field1 := field.with_arguments arguments
    let directives ← parse_directives fuel
    let field2 := field1.with_directives directives
    let tok ← unwrap_peeked_token
    match tok with
    | .OpenBrace _ => do
      let selections ← parse_selection_set fuel
      pure (field2.with_selections selections)
    | _ => pure field2

/-- Mirror of `parse_fragment_definition`:
`fragment Name on Type [@directives] { selections }`. -/
def parse_fragment_definition : Nat → PM FragmentDefinitionNode
  | 0 => noFuel
  | fuel + 1 => do
    let keyword ← unwrap_next_token
    match keyword with
    | .Name loc name =>
      if name = "fragment" then do
        let nm ← unwrap_next_token
        _ ← unwrap_next_token
        let node_type ← unwrap_next_token
        let frag_def ← ofResult (FragmentDefinitionNode.new nm node_type)
        let directives ← parse_directives fuel
        let selections ← parse_selection_set fuel
        pure ((frag_def.with_directives directives).with_selections selections)
      else throw (.UnexpectedKeyword "fragment" name loc)
    | _ => throw (.UnexpectedToken "Token<Name>" keyword.toDisplay keyword.location)

/-- Mirror of `parse_fragment_spread`: dispatch on the token after `...`. -/
def parse_fragment_spread : Nat → PM FragmentSpread
  | 0 => noFuel
  | fuel + 1 => do
    _ ← expect_token (.Spread Location.ignored)
    let tok ← unwrap_peeked_token
    match tok with
    | .Name _ "on" => do
      let i ← parse_inline_fragment_spread fuel
      pure (.Inline i)
    | .At _ => do
      let i ← parse_anonymous_inline_fragmen_spread fuel
      pure (.Inline i)
    | .Name _ _ => do
      let n ← parse_fragment_spread_node fuel
      pure (.Node n)
    | _ => throw (.UnexpectedToken "One of Token::Name or Token::At" tok.toDisplay tok.location)

/-- Mirror of `parse_fragment_spread_node`. -/
def parse_fragment_spread_node : Nat → PM FragmentSpreadNode
  | 0 => noFuel
  | fuel + 1 => do
    let name ← unwrap_next_token
    let directives ← parse_directives fuel
    let n ← ofResult (NameNode.new name)
    pure (.mk n directives)

/-- Mirror of `parse_inline_fragment_spread`. -/
def parse_inline_fragment_spread : Nat → PM InlineFragmentSpreadNode
  | 0 => noFuel
  | fuel + 1 => do
    _ ← unwrap_next_token
    let name ← unwrap_next_token
    let directives ← parse_directives fuel
    let selections ← parse_selection_set fuel
    let node_type ← ofResult (NamedTypeNode.new name)
    pure (.mk (some node_type) directives selections)

/-- Mirror of `parse_anonymous_inline_fragmen_spread` (the source's
spelling). -/
def parse_anonymous_inline_fragmen_spread : Nat → PM InlineFragmentSpreadNode
  | 0 => noFuel
  | fuel + 1 => do
    let directives ← parse_directives fuel
    let selections ← parse_selection_set fuel
    pure (.mk none directives selections)

end

/-- Mirror of `parse_definitions`: require the `Start` sentinel; an
immediately following `End` is `DocumentEmpty`; otherwise loop over
definitions until an `End` token is consumed.  The pre-loop part does not
consume fuel. -/
def parse_definitions (fuel : Nat) : PM (List DefinitionNode) := do
  _ ← expect_token .Start
  match ← expect_optional_token .End with
  | some _ => throw .DocumentEmpty
  | none => parse_definitions_loop fuel []

/-- Mirror of `AST::new`: builds the token source and unconditionally
answers `Ok` (the Rust function wraps a lazily-evaluated
`Lexer::new(input).peekable()` — construction performs no lexing, so it
cannot fail; the eager `lexItems` here is a pure value with a panic
flag, and building it likewise cannot fail). -/
def AST.new (input : String) : Except ParseError ASTState :=
  .ok { items := (lexItems input).1, panicked := (lexItems input).2 }

/-- Mirror of `AST::parse`: parse the definitions and wrap them in a
`Document`. -/
def AST.parse (fuel : Nat) : PM Document := do
  let definitions ← parse_definitions fuel
  pure (Document.new definitions)

/-- Fuel supplied by the top-level entry point: generously larger than
the number of parser calls any input of this length can cause. -/
def parseFuel (query : String) : Nat :=
  32 * (query.length + 8)

/-- Mirror of the crate-level `parse` of `lib.rs`: `AST::new` then
`AST::parse`, with the result mapped to the document alone.  The outer
`Option` is the panic layer (`none` = the Rust process panics on this
input instead of returning). -/
def parse (query : String) : Option (Except ParseError Document) :=
  match AST.new query with
  | .error e => some (.error e)
  | .ok st =>
    match AST.parse (parseFuel query) st with
    | none => none
    | some (.ok (doc, _)) => some (.ok doc)
    | some (.error e) => some (.error e)

/-! Auxiliary definitions used only in the statements and proofs of the
theorems below (they are not part of the embedded program). -/

/-- Does a parse result carry a successfully parsed document? -/
def isOkResult : Option (Except ParseError Document) → Bool
  | some (.ok _) => true
  | _ => false

/-- Total UTF-8 byte length of a character list. -/
def byteLen (l : List Char) : Nat :=
  (l.map Char.utf8Size).sum

/-- The character class `lex_name`'s continuation loop accepts. -/
def isNameContinuation (c : Char) : Bool :=
  rustIsAlphanumeric c || c == '_'

mutual

/-- Input class of claim C3: only whitespace, commas, newlines and `#`
comments (a comment runs to the end of its line). -/
def isTriviaOnly : List Char → Bool
  | [] => true
  | c :: rest =>
    if c = ' ' || c = '\t' || c = ',' || c = '\n' then isTriviaOnly rest
    else if c = '#' then isTriviaTail rest
    else false

/-- Inside a comment: consume characters through the end of the line,
then the remainder must again be trivia. -/
def isTriviaTail : List Char → Bool
  | [] => true
  | c :: rest => if c = '\n' then isTriviaOnly rest else isTriviaTail rest

end

/-- Predicate on lexer items: a `Name` token's text must begin with an
ASCII letter and continue with characters of the `lex_name` continuation
class (any other item passes). -/
def nameTokenOk : LexerItem → Bool
  | .ok (.Name _ txt) =>
    match txt.data with
    | [] => false
    | c :: cs => isAsciiLetterChar c && cs.all isNameContinuation
  | _ => true

/-- Predicate on lexer items: the item is not a `Comment` token. -/
def noCommentItem : LexerItem → Bool
  | .ok (.Comment _ _) => false
  | _ => true

/-- Strictly increasing byte offsets (the shape of any
`CharIndices`-derived list). -/
def StrictIncr (l : List (Nat × Char)) : Prop :=
  l.Pairwise (fun a b => a.1 < b.1)

/-! Helper lemmas: the lexer-run invariant (the remaining input is always
a suffix of the full character-index stream of the raw input) and the
facts about byte slicing, trivia skipping and the parser monad that the
claim theorems build on. -/

def InvIn (raw : List Char) (input : List (Nat × Char)) : Prop :=
  ∃ n, input = (charIndicesFrom 0 raw).drop n

theorem invIn_tail {raw : List Char} {input : List (Nat × Char)} (h : InvIn raw input) :
    InvIn raw input.tail := by
  obtain ⟨n, hn⟩ := h
  exact ⟨n + 1, by rw [hn, List.tail_drop]⟩

theorem invIn_drop {raw : List Char} {input : List (Nat × Char)} (m : Nat)
    (h : InvIn raw input) : InvIn raw (input.drop m) := by
  obtain ⟨n, hn⟩ := h
  exact ⟨n + m, by rw [hn, List.drop_drop]⟩

theorem iterFind_suffix {p : Nat × Char → Bool} : ∀ (l : List (Nat × Char)),
    ∃ m, (iterFind p l).2 = l.drop m := by
  intro l
  induction l with
  | nil => exact ⟨0, rfl⟩
  | cons a as ih =>
    by_cases hp : p a
    · exact ⟨1, by simp [iterFind, hp]⟩
    · obtain ⟨m, hm⟩ := ih
      exact ⟨m + 1, by simp [iterFind, hp, hm]⟩

theorem iterPosition_suffix {p : Nat × Char → Bool} : ∀ (l : List (Nat × Char)),
    ∃ m, (iterPosition p l).2 = l.drop m := by
  intro l
  induction l with
  | nil => exact ⟨0, rfl⟩
  | cons a as ih =>
    by_cases hp : p a
    · exact ⟨1, by simp [iterPosition, hp]⟩
    · obtain ⟨m, hm⟩ := ih
      refine ⟨m + 1, ?_⟩
      simp only [iterPosition, hp, if_false]
      rw [show ((a :: as).drop (m + 1)) = as.drop m from by simp]
      rw [← hm]
      rcases hip : iterPosition p as with ⟨o, r⟩
      simp [hip]
  
theorem invIn_iterFind {raw : List Char} {input : List (Nat × Char)}
    {p : Nat × Char → Bool} (h : InvIn raw input) : InvIn raw (iterFind p input).2 := by
  obtain ⟨m, hm⟩ := iterFind_suffix (p := p) input
  rw [hm]; exact invIn_drop m h

theorem invIn_iterPosition {raw : List Char} {input : List (Nat × Char)}
    {p : Nat × Char → Bool} (h : InvIn raw input) : InvIn raw (iterPosition p input).2 := by
  obtain ⟨m, hm⟩ := iterPosition_suffix (p := p) input
  rw [hm]; exact invIn_drop m h



theorem ascii_isNameContinuation {c : Char} (h : isAsciiLetterChar c = true) :
    isNameContinuation c = true := by
  simp only [isAsciiLetterChar, Bool.or_eq_true, Bool.and_eq_true, decide_eq_true_eq] at h
  simp only [isNameContinuation, rustIsAlphanumeric, Char.isAlpha, Char.isUpper, Char.isLower,
    Bool.or_eq_true, Bool.and_eq_true, decide_eq_true_eq]
  tauto

theorem asciiLetter_utf8Size {c : Char} (h : isAsciiLetterChar c = true) :
    c.utf8Size = 1 := by
  simp only [isAsciiLetterChar, Bool.or_eq_true, Bool.and_eq_true, decide_eq_true_eq] at h
  have hle : c.val ≤ UInt32.ofNatCore 0x7F (by decide) := by
    rw [UInt32.le_def, BitVec.le_def]
    rcases h with ⟨_, h2⟩ | ⟨_, h2⟩ <;>
    · rw [Char.le_def, UInt32.le_def, BitVec.le_def] at h2
      refine Nat.le_trans h2 (by decide)
  rw [Char.utf8Size]
  simp only [hle, if_pos]

theorem charIndicesFrom_drop : ∀ (n : Nat) (l : List Char) (j : Nat),
    (charIndicesFrom j l).drop n = charIndicesFrom (j + byteLen (l.take n)) (l.drop n) := by
  intro n
  induction n with
  | zero => intro l j; simp [byteLen]
  | succ n ih =>
    intro l j
    cases l with
    | nil => simp [charIndicesFrom]
    | cons c cs =>
      rw [show charIndicesFrom j (c :: cs) = (j, c) :: charIndicesFrom (j + c.utf8Size) cs from rfl]
      rw [List.drop_succ_cons, ih]
      rw [List.take_succ_cons, List.drop_succ_cons]
      congr 1
      simp only [byteLen, List.map_cons, List.sum_cons]
      omega

theorem takeAlnumCount_charIndices : ∀ (l : List Char) (j : Nat),
    takeAlnumCount (charIndicesFrom j l) = (l.takeWhile isNameContinuation).length := by
  intro l
  induction l with
  | nil => intro j; rfl
  | cons c cs ih =>
    intro j
    rw [show charIndicesFrom j (c :: cs) = (j, c) :: charIndicesFrom (j + c.utf8Size) cs from rfl]
    rw [takeAlnumCount, List.takeWhile_cons]
    by_cases hc : (rustIsAlphanumeric c || c == '_') = true
    · rw [if_pos hc, if_pos (show isNameContinuation c = true from hc), ih, List.length_cons]
    · rw [if_neg hc, if_neg (show ¬ isNameContinuation c = true from hc)]
      rfl

theorem byteDrop_of : ∀ (a : List Char) (l b : List Char) (m : Nat),
    l = a ++ b → m = byteLen a → byteDrop l m = some b := by
  intro a
  induction a with
  | nil =>
    intro l b m h1 h2
    subst h1
    rw [show byteLen ([] : List Char) = 0 from by simp [byteLen]] at h2
    subst h2
    cases l <;> rfl
  | cons c a ih =>
    intro l b m h1 h2
    subst h1
    have hp := Char.utf8Size_pos c
    have h3 : m = (c.utf8Size + byteLen a - 1) + 1 := by
      simp only [byteLen, List.map_cons, List.sum_cons] at h2
      simp only [byteLen]
      omega
    rw [h3]
    rw [show ((c :: a) ++ b) = c :: (a ++ b) from rfl]
    rw [byteDrop]
    rw [if_pos (by omega)]
    rw [show c.utf8Size + byteLen a - 1 + 1 - c.utf8Size = byteLen a from by omega]
    exact ih (a ++ b) b (byteLen a) rfl rfl

theorem byteTake_all (P : Char → Bool) : ∀ (l : List Char) (k : Nat) (u : List Char),
    byteTake l k = some u → k ≤ (l.takeWhile P).length → ∀ d ∈ u, P d = true := by
  intro l
  induction l with
  | nil =>
    intro k u h hk d hd
    cases k with
    | zero =>
      rw [byteTake] at h
      injection h with h2
      subst h2
      cases hd
    | succ m => rw [byteTake] at h; cases h
  | cons c cs ih =>
    intro k u h hk d hd
    cases k with
    | zero =>
      rw [byteTake] at h
      injection h with h2
      subst h2
      cases hd
    | succ m =>
      rw [byteTake] at h
      by_cases hsz : c.utf8Size ≤ m + 1
      · rw [if_pos hsz] at h
        rw [Option.map_eq_some'] at h
        obtain ⟨u2, hu2, hcons⟩ := h
        subst hcons
        rw [List.takeWhile_cons] at hk
        by_cases hP : P c = true
        · rw [if_pos hP, List.length_cons] at hk
          rcases hd with _ | hd2
          · exact hP
          · have hp := Char.utf8Size_pos c
            exact ih (m + 1 - c.utf8Size) u2 hu2 (by omega) d (by assumption)
        · rw [if_neg hP] at hk
          simp at hk
      · rw [if_neg hsz] at h
        cases h


theorem lex_name_branch_ok (i : Nat) (c : Char) (rest : List (Nat × Char))
    (st : LexerState) (item : LexerItem) (st1 : LexerState)
    (hinv : InvIn st.raw st.input) (hin : st.input = (i, c) :: rest)
    (hA : isAsciiLetterChar c = true)
    (h : lex_name i st = some (item, st1)) :
    (nameTokenOk item && noCommentItem item) = true ∧ st1.raw = st.raw ∧
      InvIn st1.raw st1.input := by
  obtain ⟨n, hn0⟩ := hinv
  rw [charIndicesFrom_drop] at hn0
  cases hsuf : st.raw.drop n with
  | nil =>
    rw [hsuf, hin] at hn0
    simp [charIndicesFrom] at hn0
  | cons c0 suf2 =>
    rw [hsuf] at hn0
    have hn1 := hn0
    rw [hin] at hn1
    rw [show charIndicesFrom (0 + byteLen (st.raw.take n)) (c0 :: suf2) =
        (0 + byteLen (st.raw.take n), c0) ::
          charIndicesFrom (0 + byteLen (st.raw.take n) + c0.utf8Size) suf2 from rfl] at hn1
    injection hn1 with hh ht
    injection hh with hi hc
    subst hc
    simp only [lex_name] at h
    rw [hn0, takeAlnumCount_charIndices] at h
    have hP : isNameContinuation c = true := ascii_isNameContinuation hA
    rw [List.takeWhile_cons, if_pos hP, List.length_cons] at h
    rw [show byteSlice st.raw i (i + ((suf2.takeWhile isNameContinuation).length + 1)) =
        (byteDrop st.raw i).bind
          (fun t => byteTake t (i + ((suf2.takeWhile isNameContinuation).length + 1) - i))
          from by rw [byteSlice, if_pos (Nat.le_add_right _ _)]] at h
    have hraweq : st.raw = st.raw.take n ++ (c :: suf2) := by
      rw [← hsuf, List.take_append_drop]
    have hbd : byteDrop st.raw i = some (c :: suf2) :=
      byteDrop_of (st.raw.take n) st.raw (c :: suf2) i hraweq (by omega)
    rw [hbd] at h
    simp only [Option.some_bind] at h
    rw [show i + ((suf2.takeWhile isNameContinuation).length + 1) - i =
        (suf2.takeWhile isNameContinuation).length + 1 from by omega] at h
    rw [byteTake] at h
    have hsz := asciiLetter_utf8Size hA
    rw [if_pos (by omega)] at h
    rw [hsz] at h
    rw [show (suf2.takeWhile isNameContinuation).length + 1 - 1 =
        (suf2.takeWhile isNameContinuation).length from by omega] at h
    cases hbt : byteTake suf2 (suf2.takeWhile isNameContinuation).length with
    | none => rw [hbt] at h; cases h
    | some u2 =>
      rw [hbt] at h
      simp only [Option.map_some'] at h
      injection h with h2
      injection h2 with ha hb
      subst ha
      subst hb
      refine ⟨?_, rfl, ?_⟩
      · simp only [nameTokenOk, noCommentItem, Bool.and_true]
        simp only [hA, Bool.true_and, List.all_eq_true]
        intro d hd
        exact byteTake_all isNameContinuation suf2
          (suf2.takeWhile isNameContinuation).length u2 hbt (Nat.le_refl _) d hd
      · have hback : (charIndicesFrom 0 st.raw).drop n =
            charIndicesFrom (0 + byteLen (st.raw.take n)) (c :: suf2) := by
          rw [charIndicesFrom_drop, hsuf]
        exact invIn_drop _ ⟨n, hback.symm⟩


theorem lex_string_ok (i : Nat) (st : LexerState) (item : LexerItem) (st1 : LexerState)
    (hinv : InvIn st.raw st.input) (h : lex_string i st = (item, st1)) :
    (nameTokenOk item && noCommentItem item) = true ∧ st1.raw = st.raw ∧
      InvIn st1.raw st1.input := by
  simp only [lex_string] at h
  split at h
  · split at h
    · split at h
      · injection h with ha hb
        subst ha; subst hb
        exact ⟨rfl, rfl, invIn_iterPosition hinv⟩
      · injection h with ha hb
        subst ha; subst hb
        exact ⟨rfl, rfl, invIn_iterPosition hinv⟩
    · rw [make_unmatched_quote_error] at h
      injection h with ha hb
      subst ha; subst hb
      exact ⟨rfl, rfl, hinv⟩
  · split at h
    · split at h
      · injection h with ha hb
        subst ha; subst hb
        exact ⟨rfl, rfl, invIn_iterPosition hinv⟩
      · injection h with ha hb
        subst ha; subst hb
        exact ⟨rfl, rfl, invIn_iterPosition hinv⟩
    · rw [make_unmatched_quote_error] at h
      injection h with ha hb
      subst ha; subst hb
      exact ⟨rfl, rfl, hinv⟩

theorem lex_number_ok (i : Nat) (st : LexerState) (item : LexerItem) (st1 : LexerState)
    (hinv : InvIn st.raw st.input) (h : lex_number i st = (item, st1)) :
    (nameTokenOk item && noCommentItem item) = true ∧ st1.raw = st.raw ∧
      InvIn st1.raw st1.input := by
  simp only [lex_number] at h
  split at h
  · injection h with ha hb
    subst ha; subst hb
    exact ⟨rfl, rfl, invIn_iterPosition hinv⟩
  · split at h
    · split at h <;> split at h <;>
        first
        | (injection h with ha hb; subst ha; subst hb;
           exact ⟨rfl, rfl, invIn_iterPosition hinv⟩)
        | (rw [make_conversion_error] at h; injection h with ha hb; subst ha; subst hb;
           exact ⟨rfl, rfl, hinv⟩)
    · rw [make_conversion_error] at h
      injection h with ha hb
      subst ha; subst hb
      exact ⟨rfl, rfl, hinv⟩

theorem lex_ellipsis_ok (st : LexerState) (item : LexerItem) (st1 : LexerState)
    (hinv : InvIn st.raw st.input) (h : lex_ellipsis st = (item, st1)) :
    (nameTokenOk item && noCommentItem item) = true ∧ st1.raw = st.raw ∧
      InvIn st1.raw st1.input := by
  simp only [lex_ellipsis] at h
  split at h
  · injection h with ha hb
    subst ha; subst hb
    exact ⟨rfl, rfl, invIn_iterPosition hinv⟩
  · rw [make_unexpected_character_error] at h
    injection h with ha hb
    subst ha; subst hb
    exact ⟨rfl, rfl, hinv⟩

theorem get_next_token_ok : ∀ (fuel : Nat) (st : LexerState) (item : LexerItem)
    (st1 : LexerState), InvIn st.raw st.input →
    get_next_token fuel st = some (item, st1) →
    (nameTokenOk item && noCommentItem item) = true ∧ st1.raw = st.raw ∧
      InvIn st1.raw st1.input := by
  intro fuel
  induction fuel with
  | zero =>
    intro st item st1 _ h
    rw [get_next_token] at h
    cases h
  | succ fuel ih =>
    intro st item st1 hinv h
    rcases hin : st.input with _ | ⟨⟨i, c⟩, rest⟩
    · have hrednil : get_next_token (fuel + 1) st =
          some (Except.ok Token.End, { st with input := [], ended := true }) := by
        rw [get_next_token, hin]
      rw [hrednil] at h
      injection h with h2
      have ha := congrArg Prod.fst h2
      have hb := congrArg Prod.snd h2
      subst ha; subst hb
      rw [hin] at hinv
      exact ⟨rfl, rfl, hinv⟩
    ·
      have hred : get_next_token (fuel + 1) st =
          (if c = '!' then some (lex_bang st)
           else if c = '$' then some (lex_dollar st)
           else if c = '&' then some (lex_ampersand st)
           else if c = '|' then some (lex_pipe st)
           else if c = '@' then some (lex_at st)
           else if c = ':' then some (lex_colon st)
           else if c = '=' then some (lex_equals st)
           else if c = '\x7b' then some (lex_open_brace st)
           else if c = '\x7d' then some (lex_close_brace st)
           else if c = '(' then some (lex_open_paren st)
           else if c = ')' then some (lex_close_paren st)
           else if c = '[' then some (lex_open_square st)
           else if c = ']' then some (lex_close_square st)
           else if c = '#' then
             match iterFind (fun pr => pr.2 == '\n') ((i, c) :: rest).tail with
             | (some (k, _), r2) =>
               get_next_token fuel (LexerState.advance_to { st with input := r2 } k)
             | (none, r2) => get_next_token fuel { st with input := r2 }
           else if c = ' ' || c = '\t' || c = ',' then get_next_token fuel st.advance
           else if c = '\n' then
             get_next_token fuel { st with line := st.line + 1, col := 1, position := st.position + 1, input := ((i, c) :: rest).tail }
           else if c = '"' then some (lex_string i st)
           else if isAsciiLetterChar c then lex_name i st
           else if c.isDigit || c = '-' then some (lex_number i st)
           else if c = '.' then some (lex_ellipsis st)
           else some (make_unknown_character_error st)) := by
        rw [get_next_token, hin]
      rw [hred] at h
      by_cases hc1 : c = '!'
      · rw [if_pos hc1] at h
        injection h with h2
        have ha := congrArg Prod.fst h2
        have hb := congrArg Prod.snd h2
        subst ha; subst hb
        exact ⟨rfl, rfl, invIn_tail hinv⟩
      · rw [if_neg hc1] at h
        by_cases hc2 : c = '$'
        · rw [if_pos hc2] at h
          injection h with h2
          have ha := congrArg Prod.fst h2
          have hb := congrArg Prod.snd h2
          subst ha; subst hb
          exact ⟨rfl, rfl, invIn_tail hinv⟩
        · rw [if_neg hc2] at h
          by_cases hc3 : c = '&'
          · rw [if_pos hc3] at h
            injection h with h2
            have ha := congrArg Prod.fst h2
            have hb := congrArg Prod.snd h2
            subst ha; subst hb
            exact ⟨rfl, rfl, invIn_tail hinv⟩
          · rw [if_neg hc3] at h
            by_cases hc4 : c = '|'
            · rw [if_pos hc4] at h
              injection h with h2
              have ha := congrArg Prod.fst h2
              have hb := congrArg Prod.snd h2
              subst ha; subst hb
              exact ⟨rfl, rfl, invIn_tail hinv⟩
            · rw [if_neg hc4] at h
              by_cases hc5 : c = '@'
              · rw [if_pos hc5] at h
                injection h with h2
                have ha := congrArg Prod.fst h2
                have hb := congrArg Prod.snd h2
                subst ha; subst hb
                exact ⟨rfl, rfl, invIn_tail hinv⟩
              · rw [if_neg hc5] at h
                by_cases hc6 : c = ':'
                · rw [if_pos hc6] at h
                  injection h with h2
                  have ha := congrArg Prod.fst h2
                  have hb := congrArg Prod.snd h2
                  subst ha; subst hb
                  exact ⟨rfl, rfl, invIn_tail hinv⟩
                · rw [if_neg hc6] at h
                  by_cases hc7 : c = '='
                  · rw [if_pos hc7] at h
                    injection h with h2
                    have ha := congrArg Prod.fst h2
                    have hb := congrArg Prod.snd h2
                    subst ha; subst hb
                    exact ⟨rfl, rfl, invIn_tail hinv⟩
                  · rw [if_neg hc7] at h
                    by_cases hc8 : c = '\x7b'
                    · rw [if_pos hc8] at h
                      injection h with h2
                      have ha := congrArg Prod.fst h2
                      have hb := congrArg Prod.snd h2
                      subst ha; subst hb
                      exact ⟨rfl, rfl, invIn_tail hinv⟩
                    · rw [if_neg hc8] at h
                      by_cases hc9 : c = '\x7d'
                      · rw [if_pos hc9] at h
                        injection h with h2
                        have ha := congrArg Prod.fst h2
                        have hb := congrArg Prod.snd h2
                        subst ha; subst hb
                        exact ⟨rfl, rfl, invIn_tail hinv⟩
                      · rw [if_neg hc9] at h
                        by_cases hc10 : c = '('
                        · rw [if_pos hc10] at h
                          injection h with h2
                          have ha := congrArg Prod.fst h2
                          have hb := congrArg Prod.snd h2
                          subst ha; subst hb
                          exact ⟨rfl, rfl, invIn_tail hinv⟩
                        · rw [if_neg hc10] at h
                          by_cases hc11 : c = ')'
                          · rw [if_pos hc11] at h
                            injection h with h2
                            have ha := congrArg Prod.fst h2
                            have hb := congrArg Prod.snd h2
                            subst ha; subst hb
                            exact ⟨rfl, rfl, invIn_tail hinv⟩
                          · rw [if_neg hc11] at h
                            by_cases hc12 : c = '['
                            · rw [if_pos hc12] at h
                              injection h with h2
                              have ha := congrArg Prod.fst h2
                              have hb := congrArg Prod.snd h2
                              subst ha; subst hb
                              exact ⟨rfl, rfl, invIn_tail hinv⟩
                            · rw [if_neg hc12] at h
                              by_cases hc13 : c = ']'
                              · rw [if_pos hc13] at h
                                injection h with h2
                                have ha := congrArg Prod.fst h2
                                have hb := congrArg Prod.snd h2
                                subst ha; subst hb
                                exact ⟨rfl, rfl, invIn_tail hinv⟩
                              · rw [if_neg hc13] at h
                                by_cases hc14 : c = '#'
                                · rw [if_pos hc14] at h
                                  have htl : InvIn st.raw ((i, c) :: rest).tail := by
                                    rw [← hin]
                                    exact invIn_tail hinv
                                  rcases hf : iterFind (fun pr => pr.2 == '\n') ((i, c) :: rest).tail with ⟨o, rest2⟩
                                  rw [hf] at h
                                  have hr0 := invIn_iterFind (p := fun pr => pr.2 == '\n') htl
                                  rw [hf] at hr0
                                  rcases o with _ | ⟨k, c2⟩
                                  · obtain ⟨h1, h2, h3⟩ := ih { st with input := rest2 } item st1 hr0 h
                                    exact ⟨h1, h2, h3⟩
                                  · obtain ⟨h1, h2, h3⟩ := ih (LexerState.advance_to { st with input := rest2 } k)
                                      item st1 (invIn_iterPosition hr0) h
                                    exact ⟨h1, h2, h3⟩
                                · rw [if_neg hc14] at h
                                  by_cases hc15 : (c = ' ' || c = '\t' || c = ',') = true
                                  · rw [if_pos hc15] at h
                                    exact ih st.advance item st1 (invIn_tail hinv) h
                                  · rw [if_neg hc15] at h
                                    by_cases hc16 : c = '\n'
                                    · rw [if_pos hc16] at h
                                      have htl2 : InvIn st.raw ((i, c) :: rest).tail := by
                                        rw [← hin]
                                        exact invIn_tail hinv
                                      exact ih { st with line := st.line + 1, col := 1, position := st.position + 1, input := ((i, c) :: rest).tail } item st1 htl2 h
                                    · rw [if_neg hc16] at h
                                      by_cases hc17 : c = '"'
                                      · rw [if_pos hc17] at h
                                        injection h with h2
                                        exact lex_string_ok i st item st1 hinv h2
                                      · rw [if_neg hc17] at h
                                        by_cases hc18 : isAsciiLetterChar c = true
                                        · rw [if_pos hc18] at h
                                          exact lex_name_branch_ok i c rest st item st1 hinv hin hc18 h
                                        · rw [if_neg hc18] at h
                                          by_cases hc19 : (c.isDigit || c = '-') = true
                                          · rw [if_pos hc19] at h
                                            injection h with h2
                                            exact lex_number_ok i st item st1 hinv h2
                                          · rw [if_neg hc19] at h
                                            by_cases hc20 : c = '.'
                                            · rw [if_pos hc20] at h
                                              injection h with h2
                                              exact lex_ellipsis_ok st item st1 hinv h2
                                            · rw [if_neg hc20] at h
                                              injection h with h2
                                              have ha := congrArg Prod.fst h2
                                              have hb := congrArg Prod.snd h2
                                              subst ha; subst hb
                                              exact ⟨rfl, rfl, hinv⟩


theorem lexerNext_ok_item (st : LexerState) (item : LexerItem) (st1 : LexerState)
    (hinv : InvIn st.raw st.input) (h : lexerNext st = some (some item, st1)) :
    (nameTokenOk item && noCommentItem item) = true ∧ st1.raw = st.raw ∧
      InvIn st1.raw st1.input := by
  rw [lexerNext] at h
  by_cases he : st.ended = true
  · rw [if_pos he] at h
    injection h with h2
    have ha := congrArg Prod.fst h2
    cases ha
  · rw [if_neg he] at h
    have he2 : st.ended = false := by
      revert he
      cases st.ended <;> simp
    by_cases hi : (!st.initialized) = true
    · rw [if_pos hi] at h
      injection h with h2
      have ha := congrArg Prod.fst h2
      have hb := congrArg Prod.snd h2
      injection ha with ha2
      subst ha2
      subst hb
      exact ⟨rfl, rfl, hinv⟩
    · rw [if_neg hi] at h
      rcases hin : st.input with _ | ⟨pr, rest⟩
      · rw [hin, he2] at h
        have h4 : some (some (Except.ok Token.End),
            { st with input := ([] : List (Nat × Char)), ended := true }) =
            some (some item, st1) := h
        injection h4 with h5
        have ha := congrArg Prod.fst h5
        have hb := congrArg Prod.snd h5
        injection ha with ha2
        subst ha2
        subst hb
        rw [hin] at hinv
        exact ⟨rfl, rfl, hinv⟩
      · rw [hin] at h
        rcases hg : get_next_token ((pr :: rest).length + 1) st with _ | ⟨it2, st2⟩
        · rw [hg] at h
          have h4 : (none : Option (Option LexerItem × LexerState)) =
              some (some item, st1) := h
          cases h4
        · rw [hg] at h
          have h4 : some (some it2, st2) = some (some item, st1) := h
          injection h4 with h5
          have ha := congrArg Prod.fst h5
          have hb := congrArg Prod.snd h5
          injection ha with ha2
          subst ha2
          subst hb
          exact get_next_token_ok ((pr :: rest).length + 1) st _ _ hinv hg

theorem lexRun_all_ok : ∀ (fuel : Nat) (st : LexerState), InvIn st.raw st.input →
    ((lexRun fuel st).1.all (fun it => nameTokenOk it && noCommentItem it)) = true := by
  intro fuel
  induction fuel with
  | zero => intro st _; rfl
  | succ fuel ih =>
    intro st hinv
    rw [lexRun]
    rcases hn : lexerNext st with _ | ⟨o, st1⟩
    · rfl
    · rcases o with _ | item
      · rfl
      · obtain ⟨hitem, hraw, hinv1⟩ := lexerNext_ok_item st item st1 hinv hn
        rcases hrec : lexRun fuel st1 with ⟨restL, p⟩
        have hall := ih st1 hinv1
        rw [hrec] at hall
        show ((match lexRun fuel st1 with
          | (r2, p2) => (item :: r2, p2)).1.all
            (fun it => nameTokenOk it && noCommentItem it)) = true
        rw [hrec]
        show ((item :: restL).all (fun it => nameTokenOk it && noCommentItem it)) = true
        simp only [List.all_cons, hitem, Bool.true_and]
        exact hall

theorem lexItems_all_ok (s : String) :
    ((lexItems s).1.all (fun it => nameTokenOk it && noCommentItem it)) = true :=
  lexRun_all_ok (s.data.length + 3) (LexerState.new s) ⟨0, rfl⟩

theorem iterPosition_all_false {p : Nat × Char → Bool} : ∀ (l : List (Nat × Char)),
    (∀ x ∈ l, p x = false) → iterPosition p l = (none, []) := by
  intro l
  induction l with
  | nil => intro _; rfl
  | cons a as ih =>
    intro h
    rw [iterPosition, if_neg]
    · simp [ih (fun x hx => h x (List.mem_cons_of_mem a hx))]
    · simp [h a (List.mem_cons_self a as)]

theorem iterFind_rest_gt {p : Nat × Char → Bool} : ∀ (l : List (Nat × Char)) (y : Nat × Char)
    (rest : List (Nat × Char)), StrictIncr l → iterFind p l = (some y, rest) →
    ∀ x ∈ rest, y.1 < x.1 := by
  intro l
  induction l with
  | nil => intro y rest _ h; simp [iterFind] at h
  | cons a as ih =>
    intro y rest hs h x hx
    rw [iterFind] at h
    by_cases hp : p a
    · rw [if_pos hp] at h
      cases h
      exact (List.pairwise_cons.mp hs).1 x hx
    · rw [if_neg hp] at h
      exact ih y rest (List.pairwise_cons.mp hs).2 h x hx

theorem iterFind_none {p : Nat × Char → Bool} : ∀ (l : List (Nat × Char))
    (rest : List (Nat × Char)), iterFind p l = (none, rest) → rest = [] := by
  intro l
  induction l with
  | nil => intro rest h; cases h; rfl
  | cons a as ih =>
    intro rest h
    rw [iterFind] at h
    by_cases hp : p a
    · rw [if_pos hp] at h; cases h
    · rw [if_neg hp] at h; exact ih rest h

theorem get_next_token_trivia : ∀ (fuel : Nat) (st : LexerState),
    isTriviaOnly (st.input.map Prod.snd) = true → StrictIncr st.input →
    st.input.length < fuel →
    ∃ st2, get_next_token fuel st = some (.ok .End, st2) ∧ st2.ended = true := by
  intro fuel
  induction fuel with
  | zero => intro st _ _ hlen; omega
  | succ f ih =>
    intro st htr hstrict hlen
    match hin : st.input with
    | [] =>
      refine ⟨{ st with ended := true }, ?_, rfl⟩
      rw [get_next_token, hin]
    | (i, c) :: rest =>
      rw [hin] at htr hstrict hlen
      simp only [List.map_cons] at htr
      rw [isTriviaOnly] at htr
      have hstrict2 : StrictIncr rest := (List.pairwise_cons.mp hstrict).2
      have hlen2 : rest.length < f := by simp at hlen; omega
      by_cases hws : (c = ' ' || c = '\t' || c = ',' || c = '\n') = true
      · rw [if_pos hws] at htr
        simp only [Bool.or_eq_true, decide_eq_true_eq] at hws
        rcases hws with ((h1 | h1) | h1) | h1 <;> subst h1 <;> rw [get_next_token, hin] <;> simp
        · exact ih st.advance (by simp [LexerState.advance, hin, htr])
            (by simpa [LexerState.advance, hin] using hstrict2)
            (by simp [LexerState.advance, hin]; omega)
        · exact ih st.advance (by simp [LexerState.advance, hin, htr])
            (by simpa [LexerState.advance, hin] using hstrict2)
            (by simp [LexerState.advance, hin]; omega)
        · exact ih st.advance (by simp [LexerState.advance, hin, htr])
            (by simpa [LexerState.advance, hin] using hstrict2)
            (by simp [LexerState.advance, hin]; omega)
        · exact ih _ (by simp [hin, htr]) (by simpa [hin] using hstrict2)
            (by simp [hin]; omega)
      · rw [if_neg (by simpa using hws)] at htr
        by_cases hc : c = '#'
        · subst hc
          rw [get_next_token, hin]
          simp only [List.tail_cons]
          simp
          rcases hf : iterFind (fun pr => pr.2 == '\n') rest with ⟨o, r⟩
          cases o with
          | some y =>
            rcases y with ⟨k, c2⟩
            have hall : ∀ x ∈ r, ((fun pr : Nat × Char => pr.1 == k - 1) x) = false := by
              intro x hx
              have hgt := iterFind_rest_gt rest (k, c2) r hstrict2 hf x hx
              simp only [beq_eq_false_iff_ne, ne_eq]
              omega
            have hpos := iterPosition_all_false r hall
            exact ih _ (by simp [LexerState.advance_to, hpos, isTriviaOnly])
              (by simp [StrictIncr, LexerState.advance_to, hpos])
              (by simp [LexerState.advance_to, hpos]; omega)
          | none =>
            have hr : r = [] := iterFind_none rest r hf
            subst hr
            exact ih _ (by simp [isTriviaOnly]) (by simp [StrictIncr]) (by simp; omega)
        · rw [if_neg hc] at htr
          cases htr

theorem charIndicesFrom_map_snd : ∀ (l : List Char) (i : Nat),
    (charIndicesFrom i l).map Prod.snd = l := by
  intro l
  induction l with
  | nil => intro i; rfl
  | cons c cs ih => intro i; simp [charIndicesFrom, ih]

theorem charIndicesFrom_length : ∀ (l : List Char) (i : Nat),
    (charIndicesFrom i l).length = l.length := by
  intro l
  induction l with
  | nil => intro i; rfl
  | cons c cs ih => intro i; simp [charIndicesFrom, ih]

theorem charIndicesFrom_lb : ∀ (l : List Char) (i : Nat) (x : Nat × Char),
    x ∈ charIndicesFrom i l → i ≤ x.1 := by
  intro l
  induction l with
  | nil => intro i x hx; simp [charIndicesFrom] at hx
  | cons c cs ih =>
    intro i x hx
    simp only [charIndicesFrom, List.mem_cons] at hx
    rcases hx with h | h
    · subst h; exact le_refl i
    · exact le_trans (Nat.le_add_right i c.utf8Size) (ih _ x h)

theorem strictIncr_charIndicesFrom : ∀ (l : List Char) (i : Nat),
    StrictIncr (charIndicesFrom i l) := by
  intro l
  induction l with
  | nil => intro i; exact List.Pairwise.nil
  | cons c cs ih =>
    intro i
    refine List.pairwise_cons.mpr ⟨?_, ih _⟩
    intro y hy
    have h1 : i + c.utf8Size ≤ y.1 := charIndicesFrom_lb _ _ _ hy
    have h2 : 0 < c.utf8Size := Char.utf8Size_pos c
    omega

theorem lexerNext_start (st : LexerState) (h1 : st.ended = false)
    (h2 : st.initialized = false) :
    lexerNext st = some (some (.ok .Start), { st with initialized := true }) := by
  rw [lexerNext]
  simp [h1, h2]

theorem lexerNext_tok (st : LexerState) (h1 : st.ended = false) (h2 : st.initialized = true)
    (x : Nat × Char) (xs : List (Nat × Char)) (hin : st.input = x :: xs) :
    lexerNext st =
      match get_next_token (st.input.length + 1) st with
      | some (item, st1) => some (some item, st1)
      | none => none := by
  rw [lexerNext]
  simp only [h1, h2, Bool.not_true, Bool.false_eq_true, if_false, ite_false]
  rw [hin]

theorem lexerNext_ended (st : LexerState) (h : st.ended = true) :
    lexerNext st = some (none, st) := by
  rw [lexerNext, if_pos h]

theorem lexItems_trivia (s : List Char) (h : isTriviaOnly s = true) :
    lexItems (String.mk s) = ([.ok .Start, .ok .End], false) := by
  rcases s with _ | ⟨c, cs⟩
  · rfl
  · have h1in : ({ LexerState.new (String.mk (c :: cs)) with initialized := true } :
        LexerState).input = charIndicesFrom 0 (c :: cs) := rfl
    obtain ⟨st2, hg, he⟩ := get_next_token_trivia
      (({ LexerState.new (String.mk (c :: cs)) with initialized := true } :
        LexerState).input.length + 1)
      { LexerState.new (String.mk (c :: cs)) with initialized := true }
      (by rw [h1in, charIndicesFrom_map_snd]; exact h)
      (by rw [h1in]; exact strictIncr_charIndicesFrom _ _)
      (Nat.lt_succ_self _)
    rw [lexItems]
    rw [show (String.mk (c :: cs)).data.length + 3 =
      ((String.mk (c :: cs)).data.length + 2) + 1 from rfl]
    rw [lexRun]
    rw [lexerNext_start (LexerState.new (String.mk (c :: cs))) rfl rfl]
    simp only []
    rw [show (String.mk (c :: cs)).data.length + 2 =
      ((String.mk (c :: cs)).data.length + 1) + 1 from rfl]
    rw [lexRun]
    rw [lexerNext_tok _ rfl rfl (0, c) (charIndicesFrom (0 + c.utf8Size) cs) rfl]
    rw [hg]
    simp only []
    rw [show (String.mk (c :: cs)).data.length + 1 =
      ((String.mk (c :: cs)).data.length) + 1 from rfl]
    rw [lexRun]
    rw [lexerNext_ended st2 he]

theorem pm_bind_dest {α β : Type} (x : PM α) (f : α → PM β) (st : ASTState) (b : β)
    (st2 : ASTState) (h : (x >>= f) st = some (.ok (b, st2))) :
    ∃ a st1, x st = some (.ok (a, st1)) ∧ f a st1 = some (.ok (b, st2)) := by
  simp only [Bind.bind, StateT.bind, ExceptT.bind, ExceptT.mk, ExceptT.bindCont,
    Option.bind] at h
  match hx : x st with
  | none => rw [hx] at h; cases h
  | some (.error e) =>
    rw [hx] at h
    simp only [ExceptT.bindCont, pure, ExceptT.pure, Option.pure_def] at h
    cases h
  | some (.ok (a, st1)) =>
    rw [hx] at h
    simp at h
    exact ⟨a, st1, rfl, h⟩

theorem parse_definitions_loop_len : ∀ (fuel : Nat) (nodes : List DefinitionNode)
    (st : ASTState) (r : List DefinitionNode) (st2 : ASTState),
    parse_definitions_loop fuel nodes st = some (.ok (r, st2)) →
    nodes.length + 1 ≤ r.length := by
  intro fuel
  induction fuel with
  | zero => intro nodes st r st2 h; cases h
  | succ f ih =>
    intro nodes st r st2 h
    rw [parse_definitions_loop] at h
    obtain ⟨d, st1, h1, h2⟩ := pm_bind_dest _ _ _ _ _ h
    obtain ⟨x, stx, h3, h4⟩ := pm_bind_dest _ _ _ _ _ h2
    match x with
    | some tok =>
      simp only [] at h4
      have : r = nodes ++ [d] := by
        have := h4
        rw [show ((pure (nodes ++ [d]) : PM (List DefinitionNode)) stx) =
          some (.ok (nodes ++ [d], stx)) from rfl] at this
        cases this
        rfl
      subst this
      simp
    | none =>
      simp only [] at h4
      have := ih (nodes ++ [d]) stx r st2 h4
      simp at this
      omega

theorem parse_nonempty_definitions : ∀ (s : String) (doc : Document),
    parse s = some (.ok doc) → doc.definitions ≠ [] := by
  intro s doc h
  rw [parse, AST.new] at h
  simp only [] at h
  match hp : AST.parse (parseFuel s) { items := (lexItems s).1, panicked := (lexItems s).2 } with
  | none => rw [hp] at h; cases h
  | some (.error e) => rw [hp] at h; cases h
  | some (.ok (doc2, st2)) =>
    rw [hp] at h
    simp only [] at h
    have hde : doc2 = doc := by
      have h9 := h
      injection h9 with h10
      injection h10
    rw [AST.parse] at hp
    obtain ⟨defs, st1, h1, h2⟩ := pm_bind_dest _ _ _ _ _ hp
    have hdoc : doc2 = Document.new defs := by
      rw [show ((pure (Document.new defs) : PM Document) st1) =
        some (.ok (Document.new defs, st1)) from rfl] at h2
      cases h2
      rfl
    rw [parse_definitions] at h1
    obtain ⟨t0, sta, h3, h4⟩ := pm_bind_dest _ _ _ _ _ h1
    obtain ⟨x, stb, h5, h6⟩ := pm_bind_dest _ _ _ _ _ h4
    match x with
    | some tok =>
      simp only [] at h6
      rw [show ((throw ParseError.DocumentEmpty : PM (List DefinitionNode)) stb) =
        some (.error .DocumentEmpty) from rfl] at h6
      cases h6
    | none =>
      simp only [] at h6
      have hlen := parse_definitions_loop_len _ _ _ _ _ h6
      rw [← hde, hdoc]
      simp only [Document.new, ne_eq]
      intro hcon
      rw [hcon] at hlen
      simp at hlen

theorem parse_trivia (s : List Char) (h : isTriviaOnly s = true) :
    parse (String.mk s) = some (.error .DocumentEmpty) := by
  have hli := lexItems_trivia s h
  rw [parse, AST.new]
  simp only []
  rw [hli]
  exact rfl

/-! Claim theorems.  Each theorem settles one claim of the specification
against the embedded program. -/

/-- Claim C1: type references bind the non-null wrapper innermost-first.
`parse_field_type` on the token stream of `[Int!]!` yields
`NonNull (List (NonNull (Named Int)))` and on `[Int]!` yields
`NonNull (List (Named Int))`, for every fuel, token locations and stream
tail; and whole-document parses of `type T { f: [Int!]! }` and
`type T { f: [Int]! }` return exactly those field types. -/
theorem c1_balanced_type_wrapping :
    (∀ (fuel : Nat) (l1 l2 l3 l4 l5 : Location) (rest : List LexerItem) (p : Bool),
      parse_field_type (fuel + 2)
        ⟨.ok (.OpenSquare l1) :: .ok (.Name l2 "Int") :: .ok (.Bang l3) ::
          .ok (.CloseSquare l4) :: .ok (.Bang l5) :: rest, p⟩ =
        some (.ok (.NonNull (.List (.NonNull (.Named ⟨⟨"Int"⟩⟩))), ⟨rest, p⟩))) ∧
    (∀ (fuel : Nat) (l1 l2 l4 l5 : Location) (rest : List LexerItem) (p : Bool),
      parse_field_type (fuel + 2)
        ⟨.ok (.OpenSquare l1) :: .ok (.Name l2 "Int") ::
          .ok (.CloseSquare l4) :: .ok (.Bang l5) :: rest, p⟩ =
        some (.ok (.NonNull (.List (.Named ⟨⟨"Int"⟩⟩)), ⟨rest, p⟩))) ∧
    parse "type T \x7b f: [Int!]! \x7d" = some (.ok ⟨[.TypeSystem (.Type (.Object
      ⟨none, ⟨"T"⟩, none, none,
        [⟨none, ⟨"f"⟩, none, .NonNull (.List (.NonNull (.Named ⟨⟨"Int"⟩⟩)))⟩]⟩))]⟩) ∧
    parse "type T \x7b f: [Int]! \x7d" = some (.ok ⟨[.TypeSystem (.Type (.Object
      ⟨none, ⟨"T"⟩, none, none,
        [⟨none, ⟨"f"⟩, none, .NonNull (.List (.Named ⟨⟨"Int"⟩⟩))⟩]⟩))]⟩) :=
  ⟨fun _ _ _ _ _ _ _ _ => rfl, fun _ _ _ _ _ _ _ => rfl, rfl, rfl⟩

/-- Claim C2 (amended): `validate_extension (some original)` fails exactly
when some field of the extension is equal, under the derived structural
`PartialEq` of `FieldDefinitionNode` (description, name, arguments and
type all compared), to a field of the original — not under name-only
comparison — and the failure message comma-joins the names of the
structurally conflicting fields in extension-field order. -/
theorem c2_validate_extension_structural :
    ∀ (ext : ObjectTypeExtensionNode) (orig : ObjectTypeDefinitionNode),
    ((ext.validate_extension (some orig) = .ok ()) ↔
      ¬ ∃ f ∈ ext.get_fields, orig.get_fields.contains f = true) ∧
    (∀ msg, ext.validate_extension (some orig) = .error ⟨msg⟩ →
      msg = "Invalid Extension: Cannot redefine field(s) " ++ String.intercalate ", "
        ((ext.get_fields.filter (fun f => orig.get_fields.contains f)).map
          (fun f => f.name.value))) := by
  intro ext orig
  have hiff : contains_any_element orig.get_fields ext.get_fields = true ↔
      ∃ f ∈ ext.get_fields, orig.get_fields.contains f = true := by
    simp [contains_any_element, List.any_eq_true]
  by_cases h : contains_any_element orig.get_fields ext.get_fields = true
  · constructor
    · simp only [ObjectTypeExtensionNode.validate_extension,
        validate_extension_fields_against_original, h, if_true]
      constructor
      · intro hcontra; exact absurd hcontra (by simp)
      · intro hne; exact absurd (hiff.mp h) hne
    · intro msg hmsg
      simp only [ObjectTypeExtensionNode.validate_extension,
        validate_extension_fields_against_original, h, if_true] at hmsg
      cases hmsg
      rfl
  · have h2 : contains_any_element orig.get_fields ext.get_fields = false := by
      revert h; cases contains_any_element orig.get_fields ext.get_fields <;> simp
    constructor
    · simp only [ObjectTypeExtensionNode.validate_extension,
        validate_extension_fields_against_original, h2, Bool.false_eq_true, if_false]
      simp only [true_iff, iff_true_intro rfl]
      exact fun hex => h (hiff.mpr hex)
    · intro msg hmsg
      simp only [ObjectTypeExtensionNode.validate_extension,
        validate_extension_fields_against_original, h2, Bool.false_eq_true, if_false] at hmsg
      cases hmsg

/-- Counterexample to claim C2 as stated: an original field `foo: Int` and
an extension field `foo: String` share a name but differ structurally, and
`validate_extension` accepts the extension instead of failing. -/
theorem c2_name_only_refuted :
    ObjectTypeExtensionNode.validate_extension
      ⟨none, ⟨"Obj"⟩, none, none, some [⟨none, ⟨"foo"⟩, none, .Named ⟨⟨"String"⟩⟩⟩]⟩
      (some ⟨none, ⟨"Obj"⟩, none, none, [⟨none, ⟨"foo"⟩, none, .Named ⟨⟨"Int"⟩⟩⟩]⟩) =
      .ok () := rfl

/-- Claim C3: `parse ""` and `parse "   \n  "` fail with `DocumentEmpty`;
every input made only of whitespace, commas, newlines and comments fails
with `DocumentEmpty`; and no successful parse ever returns a `Document`
with an empty definitions list. -/
theorem c3_trivia_document_empty :
    parse "" = some (.error .DocumentEmpty) ∧
    parse "   \n  " = some (.error .DocumentEmpty) ∧
    (∀ s : List Char, isTriviaOnly s = true →
      parse (String.mk s) = some (.error .DocumentEmpty)) ∧
    (∀ (s : String) (doc : Document), parse s = some (.ok doc) →
      doc.definitions ≠ []) :=
  ⟨rfl, rfl, parse_trivia, parse_nonempty_definitions⟩

/-- Claim C4: `parse "type Empty {}"` fails with `ObjectEmpty` carrying
the location of the `Empty` name token (byte 5, line 1, column 6), and
`ObjectTypeDefinitionNode.new` rejects every empty field list at
construction time with `ObjectEmpty` at the name token's location. -/
theorem c4_object_empty_rejected :
    parse "type Empty \x7b\x7d" = some (.error (.ObjectEmpty (Location.new 5 1 6))) ∧
    (∀ (tok : Token) (desc : Description),
      ObjectTypeDefinitionNode.new tok desc [] = .error (.ObjectEmpty tok.location)) :=
  ⟨rfl, fun _ _ => rfl⟩

/-- Claim C5 (amended): the `true`/`false`/`null` keyword-collision check
of `parse_enum_type` applies to the enum **type name** token, not to the
brace-listed value names: `parse "enum true { A }"` fails with `BadValue`
(universally in the fuel, location and stream tail), while
`parse "enum E { true }"` succeeds with an enum value literally named
`true`. -/
theorem c5_enum_keyword_on_type_name :
    parse "enum true \x7b A \x7d" = some (.error .BadValue) ∧
    (∀ (fuel : Nat) (p : Bool) (loc : Location) (rest : List LexerItem),
      parse_enum_type (fuel + 1) none ⟨.ok (.Name loc "true") :: rest, p⟩ =
        some (.error .BadValue)) ∧
    parse "enum E \x7b true \x7d" = some (.ok ⟨[.TypeSystem (.Type (.Enum
      ⟨none, ⟨"E"⟩, none, [⟨none, ⟨"true"⟩, none⟩]⟩))]⟩) :=
  ⟨rfl, fun _ _ _ _ => rfl, rfl⟩

/-- Counterexample to claim C5 as stated: `parse "enum E { true }"`
succeeds — the value name `true` is not rejected. -/
theorem c5_enum_value_true_accepted :
    isOkResult (parse "enum E \x7b true \x7d") = true := rfl

/-- Claim C6 (amended): the name after the `query` keyword is required,
not optional — `parse_query` unconditionally consumes a name token, so
`parse "query { a }"` fails; a nameless query definition arises only from
the anonymous shorthand `{ a }`, while `query Foo { a }` succeeds with the
name present. -/
theorem c6_query_name_required :
    isOkResult (parse "query \x7b a \x7d") = false ∧
    parse "query Foo \x7b a \x7d" = some (.ok ⟨[.Executable (.Operation (.Query
      ⟨some ⟨"Foo"⟩, [], [.Field (.mk ⟨"a"⟩ none none none none)]⟩))]⟩) ∧
    parse "\x7b a \x7d" = some (.ok ⟨[.Executable (.Operation (.Query
      ⟨none, [], [.Field (.mk ⟨"a"⟩ none none none none)]⟩))]⟩) :=
  ⟨rfl, rfl, rfl⟩

/-- Counterexample to claim C6 as stated: `parse "query { a }"` does not
succeed with an absent name; it fails with `UnexpectedToken`, because
`parse_query` consumed the `{` as the query's name token and the
selection-set parser then met `a` where it expected `{`. -/
theorem c6_anonymous_query_keyword_fails :
    parse "query \x7b a \x7d" = some (.error (.UnexpectedToken
      "Token<OpenBrace(Location \x7b absolute_position: 0, line: 0, column: 0 \x7d)>"
      "Token<Name(Location \x7b absolute_position: 8, line: 1, column: 9 \x7d, \"a\")>"
      (Location.new 8 1 9))) := rfl

/-- Claim C7 (code bug): on the input `"aé"` the lexer yields `Start` and
then panics (the panic flag is set): `lex_name` counts two accepted
characters but slices the raw input at byte range 0..2, which falls inside
the two-byte character `é`, so `str::get` returns `None` and the `unwrap`
panics.  No error item is yielded and `End` is never yielded — contrast
the single-byte input `"a"`, which lexes normally. -/
theorem c7_lexer_panics_on_multibyte_name :
    lexItems "aé" = ([.ok .Start], true) ∧
    lexItems "a" = ([.ok .Start, .ok (.Name (Location.new 0 1 1) "a"), .ok .End], false) :=
  ⟨rfl, rfl⟩

/-- Claim C8 (amended): every `Name` token the lexer yields, on any input,
begins with an ASCII letter and continues only with characters accepted by
`lex_name`'s continuation loop — Rust's Unicode `char::is_alphanumeric`
or `_`, a class strictly larger than ASCII letters, digits and `_`. -/
theorem c8_name_tokens_start_ascii : ∀ s : String,
    ((lexItems s).1.all nameTokenOk) = true := by
  intro s
  have h := lexItems_all_ok s
  simp only [List.all_eq_true] at h ⊢
  intro x hx
  exact (Bool.and_eq_true_iff.mp (h x hx)).1

/-- Counterexample to claim C8 as stated: lexing `"aéb"` yields a `Name`
token whose text `aé` contains a non-ASCII character (the continuation
class is Unicode `is_alphanumeric`, not ASCII-only). -/
theorem c8_name_token_non_ascii :
    lexItems "aéb" = ([.ok .Start, .ok (.Name (Location.new 0 1 1) "aé"), .ok .End],
      false) ∧
    ("aé".data.all (fun ch => ch.toNat ≤ 127)) = false :=
  ⟨rfl, by decide⟩

/-- Claim C9 (amended): the lexer never yields a `Comment` token on any
input; but a `#` comment is consumed through the end of the **input**, not
merely its line — `ignore_comments` advances past everything the comment's
`find` left, so `"#c\nname"` lexes to just the `Start`/`End` sentinels. -/
theorem c9_no_comment_token_comment_swallows_rest :
    (∀ s : String, ((lexItems s).1.all noCommentItem) = true) ∧
    lexItems "#c\nname" = ([.ok .Start, .ok .End], false) := by
  refine ⟨?_, rfl⟩
  intro s
  have h := lexItems_all_ok s
  simp only [List.all_eq_true] at h ⊢
  intro x hx
  exact (Bool.and_eq_true_iff.mp (h x hx)).2

/-- Counterexample to claim C9 as stated: after the comment line `#c`,
the following line `name` is swallowed — `lexItems "#c\nname"` yields no
`Name` token, although `"name"` alone lexes to one. -/
theorem c9_comment_swallows_following_line :
    lexItems "#c\nname" = ([.ok .Start, .ok .End], false) ∧
    lexItems "name" = ([.ok .Start, .ok (.Name (Location.new 0 1 1) "name"), .ok .End],
      false) :=
  ⟨rfl, rfl⟩

/-- Claim C10: `AST.new` succeeds for every input string — it returns
`Ok` unconditionally; all lexical and syntactic failures surface only
from the later `parse` call. -/
theorem c10_ast_new_always_ok : ∀ input : String, (AST.new input).isOk = true :=
  fun _ => rfl

end Gql
